import Mathlib

/-!
# Hydroform function operator: reconcile engine and owner-scoped sweep

A shallow embedding of `function/pkg/operator/operator.go`
(`applyObject`, `wipeRemoved`, `deleteObject`, `fireCallbacks`) and of
`function/internal/resources/unstructured/function.go` (`newFunction`),
together with the library behaviour those functions rely on.

* Documents are `unstructured.Unstructured`: a map from field names to
  JSON-like values. Go maps are written as association lists in which the
  first binding of a key is the one the map holds.
* The remote store is a `Client` over an explicit store state; every call
  to it and every callback invocation is recorded in a trace of `Event`s.
* A Go runtime panic that leaves a function is the outcome `Outcome.panic`.
-/

namespace Hydroform

/-! ## Documents -/

/-- The values an unstructured document holds, each with the name of its Go
dynamic type, which `DeepDerivative` compares before anything else: `null` is
the nil interface. The kinds are those of JSON content and of the Go values a
document is built from (a string of a named string type, a `map[string]string`,
an `int` next to an `int64`). Floating point numbers are left out. -/
inductive Value where
  | null
  | boolOf (ty : String) (b : Bool)
  | intOf (ty : String) (n : Int)
  | strOf (ty : String) (s : String)
  | listOf (ty : String) (xs : List Value)
  | mapOf (ty : String) (kvs : List (String × Value))

/-- A Go `bool`. -/
@[match_pattern] abbrev Value.bool (b : Bool) : Value := Value.boolOf "bool" b

/-- A Go `int64`, the type of an integer of a decoded document. -/
@[match_pattern] abbrev Value.int (n : Int) : Value := Value.intOf "int64" n

/-- A Go `string`. -/
@[match_pattern] abbrev Value.str (s : String) : Value := Value.strOf "string" s

/-- A Go `[]interface{}`, the type of a list of a decoded document. -/
@[match_pattern] abbrev Value.list (xs : List Value) : Value :=
  Value.listOf "[]interface {}" xs

/-- A Go `map[string]interface{}`, the type of an object of a decoded
document. -/
@[match_pattern] abbrev Value.map (kvs : List (String × Value)) : Value :=
  Value.mapOf "map[string]interface {}" kvs

/-- Go's `m[key]` with the comma-ok result: `none` when the key is absent. -/
def mapIndex : List (String × Value) → String → Option Value
  | [], _ => none
  | (k, v) :: rest, key => if k = key then some v else mapIndex rest key

/-- Go's `m[key] = v`: replaces the binding of `key`, or adds one. -/
def mapAssign : List (String × Value) → String → Value → List (String × Value)
  | [], key, v => [(key, v)]
  | (k, w) :: rest, key, v =>
    if k = key then (k, v) :: rest else (k, w) :: mapAssign rest key v

/-- Go's `len(m)`: the number of distinct keys. -/
def mapLen (m : List (String × Value)) : Nat := (m.map Prod.fst).dedup.length

/-- Go's `m[key]` read as an `interface{}`: nil when the key is absent. -/
def mapGet (m : List (String × Value)) (key : String) : Value :=
  (mapIndex m key).getD Value.null

/-- The document type `unstructured.Unstructured`. -/
structure Unstructured where
  Object : List (String × Value)

/-- The method `Unstructured.GetName`: the string at `metadata.name`, or the empty
string when `metadata` is not a `map[string]interface{}` or the name is absent
or not a `string` (the type assertions of `NestedString`). -/
def Unstructured.GetName (u : Unstructured) : String :=
  match mapIndex u.Object "metadata" with
  | some (Value.map md) =>
    match mapIndex md "name" with
    | some (Value.str s) => s
    | _ => ""
  | _ => ""

/-! ## Semantic derivative equality (`equality.Semantic.DeepDerivative`) -/

/-- The result of running Go code that may panic. -/
inductive Outcome (α : Type) where
  | ret (a : α)
  | panic

mutual
/-- The recursive comparison behind `DeepDerivative`, on two values held in
interfaces. A nil on the left matches anything. A value on the left with a nil
on the right panics: the comparison of the types, `v1.Type() != v2.Type()`,
calls `Type` on the zero `reflect.Value`. Values of different dynamic type do
not match. An empty string, an empty slice and an empty map on the left are
unset and match any value of their type; a slice on the left matches a slice
that is at least as long and matches it element by element; a map on the left
is compared key by key with a map that has at least as many keys; booleans and
numbers match when they are equal. -/
def deepValueDerive : Value → Value → Outcome Bool
  | .null, _ => .ret true
  | .boolOf t1 a, .boolOf t2 b => .ret (t1 == t2 && a == b)
  | .intOf t1 a, .intOf t2 b => .ret (t1 == t2 && a == b)
  | .strOf t1 s1, .strOf t2 s2 => .ret (t1 == t2 && (s1 == "" || s1 == s2))
  | .listOf t1 xs, .listOf t2 ys =>
    if t1 != t2 then .ret false
    else if xs.isEmpty then .ret true
    else if ys.length < xs.length then .ret false
    else deriveSlice xs ys
  | .mapOf t1 m1, .mapOf t2 m2 =>
    if t1 != t2 then .ret false
    else if m1.isEmpty then .ret true
    else if mapLen m2 < mapLen m1 then .ret false
    else deriveMap [] m1 m2
  | _, .null => .panic
  | _, _ => .ret false
/-- The element loop of the slice case: it ends at the first pair of elements
that does not match, or panics with it. -/
def deriveSlice : List Value → List Value → Outcome Bool
  | [], _ => .ret true
  | _ :: _, [] => .ret false
  | x :: xs, y :: ys =>
    match deepValueDerive x y with
    | .panic => .panic
    | .ret false => .ret false
    | .ret true => deriveSlice xs ys
/-- The key loop of the map case, `for _, k := range v1.MapKeys()`, in the
order of the bindings of the left map, which stands for the order that
`MapKeys` yields; `seen` holds the keys already visited, so that a shadowed
binding is not visited a second time. For a key that the right map lacks,
`v2.MapIndex(k)` is the zero `reflect.Value`, and the comparison of the
element with it panics in `v2.Type()`, whatever the element is. The loop ends
at the first key whose values do not match. -/
def deriveMap (seen : List String) :
    List (String × Value) → List (String × Value) → Outcome Bool
  | [], _ => .ret true
  | (k, v) :: rest, m2 =>
    if k ∈ seen then deriveMap (k :: seen) rest m2
    else
      match mapIndex m2 k with
      | none => .panic
      | some w =>
        match deepValueDerive v w with
        | .panic => .panic
        | .ret false => .ret false
        | .ret true => deriveMap (k :: seen) rest m2
end

/-- The call `equality.Semantic.DeepDerivative(a1, a2)`: true when `a1` is nil; with
`a1` set and `a2` nil the type comparison `reflect.ValueOf(a2).Type()` runs on
the zero `reflect.Value` and panics; otherwise the types are compared and then
the values. The custom equalities of `equality.Semantic` are for types that a
document does not hold. -/
def DeepDerivative (a1 a2 : Value) : Outcome Bool :=
  match a1, a2 with
  | .null, _ => .ret true
  | _, .null => .panic
  | v1, v2 => deepValueDerive v1 v2

/-! ## Errors, status entries, store client -/

/-- The part of an API status error the operator looks at. -/
inductive StatusReason where
  | NotFound
  | Conflict
  | Unknown
deriving DecidableEq, Repr

/-- A non-nil Go `error`. A nil error is `none : Option Err`. -/
structure Err where
  reason : StatusReason
  msg : String
deriving DecidableEq, Repr

/-- The test `errors.IsNotFound`; false on a nil error. -/
def IsNotFound : Option Err → Bool
  | some e => decide (e.reason = StatusReason.NotFound)
  | none => false

/-- The test `errors.IsConflict`. -/
def IsConflict (e : Err) : Bool := decide (e.reason = StatusReason.Conflict)

/-- The tag `client.StatusType` of a status entry. -/
inductive StatusType where
  | Created
  | Updated
  | Skipped
  | Deleted
  | Failed
deriving DecidableEq, Repr

/-- Modelled from the spec: `client.PostStatusEntry`, whose declaration is in
the `client` package: a status tag and the document it carries. -/
structure PostStatusEntry where
  StatusType : StatusType
  Unstructured : Unstructured

/-- The constructor `client.NewPostStatusEntryFailed`. -/
def NewPostStatusEntryFailed (u : Unstructured) : PostStatusEntry := ⟨.Failed, u⟩
/-- The constructor `client.NewPostStatusEntrySkipped`. -/
def NewPostStatusEntrySkipped (u : Unstructured) : PostStatusEntry := ⟨.Skipped, u⟩
/-- The constructor `client.NewPostStatusEntryUpdated`. -/
def NewPostStatusEntryUpdated (u : Unstructured) : PostStatusEntry := ⟨.Updated, u⟩
/-- The constructor `client.NewStatusEntryCreated`. -/
def NewStatusEntryCreated (u : Unstructured) : PostStatusEntry := ⟨.Created, u⟩
/-- The constructor `client.NewPostStatusEntryDeleted`. -/
def NewPostStatusEntryDeleted (u : Unstructured) : PostStatusEntry := ⟨.Deleted, u⟩

/-- The propagation modes `metav1.DeletionPropagation`. -/
inductive DeletionPropagation where
  | Orphan
  | Background
  | Foreground
deriving DecidableEq, Repr

/-- The options `metav1.DeleteOptions`, the fields the operator sets. -/
structure DeleteOptions where
  DryRun : List String
  PropagationPolicy : DeletionPropagation
deriving DecidableEq, Repr

/-- The store contract `client.Client` over a store state `σ`. A pointer
result is an `Option` (`none` is the nil pointer), an error result is an
`Option Err`. `List` yields the `Items` of the returned list. -/
structure Client (σ : Type) where
  Get : String → σ → (Option Unstructured × Option Err) × σ
  Create : Unstructured → List String → σ → (Option Unstructured × Option Err) × σ
  Update : Option Unstructured → List String → σ → (Option Unstructured × Option Err) × σ
  Delete : String → DeleteOptions → σ → Option Err × σ
  List : String → σ → (Option (List Unstructured) × Option Err) × σ

/-- The value handed to a callback (`interface{}`): a document pointer or a
status entry. -/
inductive CallbackArg where
  | obj (u : Unstructured)
  | entry (e : PostStatusEntry)

/-- How a callback invocation ends: it returns an error value (nil or not),
or it panics with a value, kept as its `%v` rendering. The value of a panic is
not nil: what `recover` reports for `panic(nil)` depends on the Go version. -/
inductive CallbackResult where
  | returns (err : Option Err)
  | panics (v : String)

/-- The type `Callback = func(interface{}, error) error`, with the state `σ`
it may read and change: the store and whatever else the callback can reach,
such as a variable it holds a pointer to. -/
abbrev Callback (σ : Type) := CallbackArg → Option Err → σ → CallbackResult × σ

/-- Modelled from the spec: `Options`, declared outside `operator.go`: the
`Pre` and `Post` callbacks and the dry-run markers. `wipeRemoved` hands its
`Pre` callbacks `&item`, a pointer to its loop variable, so the state its
callbacks work on is the store together with the document in that variable:
a callback may replace or rename it, and may keep the pointer for later. -/
structure Options (σ : Type) where
  Pre : List (Callback (σ × Unstructured))
  Post : List (Callback (σ × Unstructured))
  DryRun : List String

/-- What is observable of a run: the store calls and callback invocations. -/
inductive Event where
  | get (name : String)
  | list (labelSelector : String)
  | create (obj : Unstructured) (dryRun : List String)
  | update (obj : Option Unstructured) (dryRun : List String)
  | delete (name : String) (opts : DeleteOptions)
  | callback (v : CallbackArg) (err : Option Err)

/-- A finished run: its outcome, the store state it leaves, and the events it
produced, oldest first. -/
structure Run (σ α : Type) where
  out : Outcome α
  st : σ
  trace : List Event

/-- A finished run of code that cannot panic: its value, the store state it
leaves, and the events it produced, oldest first. -/
structure Step (σ α : Type) where
  val : α
  st : σ
  trace : List Event

/-! ## `retry.RetryOnConflict` -/

/-- The function `retry.OnError` over `wait.ExponentialBackoff`: `fn` runs at most `steps`
times; a nil error ends the loop with nil, an error that is not retriable
ends it with that error, and when the steps are used up the last retriable
error is returned. `S` is the state `fn` works on. Sleeping is not modelled. -/
def OnError {S : Type} (retriable : Err → Bool) (fn : S → Option Err × S) :
    Nat → Option Err → S → Option Err × S
  | 0, lastErr, s => (lastErr, s)
  | steps + 1, _, s =>
    match fn s with
    | (none, s1) => (none, s1)
    | (some e, s1) =>
      if retriable e then OnError retriable fn steps (some e) s1 else (some e, s1)

/-- The call `retry.RetryOnConflict(backoff, fn)` for a backoff of `steps` steps. -/
def RetryOnConflict {S : Type} (steps : Nat) (fn : S → Option Err × S) (s : S) :
    Option Err × S :=
  OnError IsConflict fn steps none s

/-- The `Steps` of `retry.DefaultRetry`. -/
def DefaultRetrySteps : Nat := 5

/-! ## `operator.go` -/

/-- The function `fireCallbacks(v, err, cbs...)`: the callbacks run in order with
`(v, err)`; a panic is recovered into an error made of the panic value; the
first non-nil callback error ends the dispatch and is returned; otherwise
`err` is returned. -/
def fireCallbacks {σ : Type} (v : CallbackArg) (err : Option Err) :
    List (Callback σ) → σ → Step σ (Option Err)
  | [], s => ⟨err, s, []⟩
  | callback :: cbs, s =>
    let r := callback v err s
    let callbackErr : Option Err :=
      match r.1 with
      | .panics p => some ⟨StatusReason.Unknown, p⟩
      | .returns e => e
    match callbackErr with
    | some e => ⟨some e, r.2, [Event.callback v err]⟩
    | none =>
      let k := fireCallbacks v err cbs r.2
      ⟨k.val, k.st, Event.callback v err :: k.trace⟩

/-- Modelled from the spec: `contains(u, name)`, defined outside
`operator.go`: whether a document of the desired set has this name. -/
def contains (s : List Unstructured) (name : String) : Bool :=
  s.any (fun u => u.GetName == name)

/-- The options of the `Delete` call in `wipeRemoved`. -/
def wipeDeleteOptions {σ : Type} (opts : Options σ) : DeleteOptions :=
  { DryRun := opts.DryRun, PropagationPolicy := DeletionPropagation.Background }

/-- The loop variable `item` of `wipeRemoved` after the `Pre` callbacks have
run for the listed `item` from the store `s`. -/
def itemAfterPre {σ : Type} (opts : Options σ) (item : Unstructured) (s : σ) :
    Unstructured :=
  (fireCallbacks (CallbackArg.obj item) none opts.Pre (s, item)).st.2

/-- The store after the `Pre` callbacks have run for the listed `item` from
the store `s`. -/
def storeAfterPre {σ : Type} (opts : Options σ) (item : Unstructured) (s : σ) : σ :=
  (fireCallbacks (CallbackArg.obj item) none opts.Pre (s, item)).st.1

/-- The body of the loop of `wipeRemoved` for one listed item. The value is
`some e` when the body returns `e` from `wipeRemoved`, and `none` when the
loop goes on to the next item. The loop variable `item` starts as the listed
item and is part of the state of the callbacks; after each dispatch the body
reads it again: `item.GetName()` for the `Delete`, and `item` for the status
entries, are what the variable holds at that point. A callback argument is
recorded as the document it designates when the dispatch starts. -/
def wipeItem {σ : Type} (i : Client σ) (u : List Unstructured) (opts : Options σ)
    (item : Unstructured) (s : σ) : Step σ (Option Err) :=
  if contains u item.GetName then ⟨none, s, []⟩
  else
    let pre := fireCallbacks (CallbackArg.obj item) none opts.Pre (s, item)
    match pre.val with
    | some e => ⟨some e, pre.st.1, pre.trace⟩
    | none =>
      let d := i.Delete pre.st.2.GetName (wipeDeleteOptions opts) pre.st.1
      let del := Event.delete pre.st.2.GetName (wipeDeleteOptions opts)
      let failed : Step (σ × Unstructured) (Option Err) :=
        match d.1 with
        | some err =>
          fireCallbacks (CallbackArg.entry (NewPostStatusEntryFailed pre.st.2)) (some err)
            opts.Post (d.2, pre.st.2)
        | none => ⟨none, (d.2, pre.st.2), []⟩
      match failed.val with
      | some e => ⟨some e, failed.st.1, pre.trace ++ del :: failed.trace⟩
      | none =>
        let post :=
          fireCallbacks (CallbackArg.entry (NewPostStatusEntryDeleted failed.st.2)) none
            opts.Post failed.st
        ⟨post.val, post.st.1, pre.trace ++ del :: (failed.trace ++ post.trace)⟩

/-- The loop `for _, item := range list.Items` of `wipeRemoved`. -/
def wipeItems {σ : Type} (i : Client σ) (u : List Unstructured) (opts : Options σ) :
    List Unstructured → σ → Step σ (Option Err)
  | [], s => ⟨none, s, []⟩
  | item :: rest, s =>
    let b := wipeItem i u opts item s
    match b.val with
    | some e => ⟨some e, b.st, b.trace⟩
    | none =>
      let k := wipeItems i u opts rest b.st
      ⟨k.val, k.st, b.trace ++ k.trace⟩

/-- The label selector of the owner-label `List` call; `message` is the owner
label, a constant declared outside `operator.go`. -/
def ownerSelector (message ownerID : String) : String := message ++ "=" ++ ownerID

/-- The function `wipeRemoved(ctx, i, u, ownerID, opts)`. Reading `list.Items` through a
nil list pointer panics. -/
def wipeRemoved {σ : Type} (message : String) (i : Client σ) (u : List Unstructured)
    (ownerID : String) (opts : Options σ) (s : σ) : Run σ (Option Err) :=
  let l := i.List (ownerSelector message ownerID) s
  let ev := Event.list (ownerSelector message ownerID)
  match l.1.2 with
  | some err => ⟨.ret (some err), l.2, [ev]⟩
  | none =>
    match l.1.1 with
    | none => ⟨.panic, l.2, [ev]⟩
    | some items =>
      let k := wipeItems i u opts items l.2
      ⟨.ret k.val, k.st, ev :: k.trace⟩

/-- What the closure passed to `RetryOnConflict` in `applyObject` works on:
the captured variable `response`, the store, and the events so far. -/
structure UpdateState (σ : Type) where
  response : Option Unstructured
  st : σ
  trace : List Event

/-- The closure of `applyObject`: one `Update` call with the current
`response`, whose document result is assigned back to `response`. -/
def updateOnce {σ : Type} (c : Client σ) (stages : List String) (x : UpdateState σ) :
    Option Err × UpdateState σ :=
  let r := c.Update x.response stages x.st
  (r.1.2, ⟨r.1.1, r.2, x.trace ++ [Event.update x.response stages]⟩)

/-- The document that `applyObject` stages for the update: the statement
`response.Object["spec"] = u.Object["spec"]` on the observed document. -/
def stagedDoc (u response : Unstructured) : Unstructured :=
  ⟨mapAssign response.Object "spec" (mapGet u.Object "spec")⟩

/-- The result triple of `applyObject`. -/
abbrev ApplyResult := Option Unstructured × PostStatusEntry × Option Err

/-- The function `applyObject(ctx, c, u, stages)`. Dereferencing a nil `response`
(`response.Object`, `*response`) panics. -/
def applyObject {σ : Type} (c : Client σ) (u : Unstructured) (stages : List String)
    (s : σ) : Run σ ApplyResult :=
  let g := c.Get u.GetName s
  let ev := Event.get u.GetName
  let objFound := !IsNotFound g.1.2
  if g.1.2.isSome && objFound then
    ⟨.ret (some u, NewPostStatusEntryFailed u, g.1.2), g.2, [ev]⟩
  else if objFound then
    match g.1.1 with
    | none => ⟨.panic, g.2, [ev]⟩
    | some response =>
      match DeepDerivative (mapGet u.Object "spec") (mapGet response.Object "spec") with
      | .panic => ⟨.panic, g.2, [ev]⟩
      | .ret true =>
        ⟨.ret (some response, NewPostStatusEntrySkipped response, none), g.2, [ev]⟩
      | .ret false =>
        let r := RetryOnConflict DefaultRetrySteps (updateOnce c stages)
          ⟨some (stagedDoc u response), g.2, [ev]⟩
        match r.1, r.2.response with
        | _, none => ⟨.panic, r.2.st, r.2.trace⟩
        | some err, some resp =>
          ⟨.ret (some u, NewPostStatusEntryFailed resp, some err), r.2.st, r.2.trace⟩
        | none, some resp =>
          ⟨.ret (some resp, NewPostStatusEntryUpdated resp, none), r.2.st, r.2.trace⟩
  else
    let r := c.Create u stages g.2
    let tr := [ev, Event.create u stages]
    match r.1.2 with
    | some err => ⟨.ret (some u, NewPostStatusEntryFailed u, some err), r.2, tr⟩
    | none =>
      match r.1.1 with
      | none => ⟨.panic, r.2, tr⟩
      | some response =>
        ⟨.ret (some response, NewStatusEntryCreated response, none), r.2, tr⟩

/-! ## Observations on traces -/

/-- The `Delete` calls of a trace, in order: the name and the options. -/
def deleteCalls : List Event → List (String × DeleteOptions)
  | [] => []
  | Event.delete name opts :: rest => (name, opts) :: deleteCalls rest
  | _ :: rest => deleteCalls rest

/-- The `Create` and `Update` calls of a trace, in order. -/
def writeCalls : List Event → List Event
  | [] => []
  | Event.create obj dryRun :: rest => Event.create obj dryRun :: writeCalls rest
  | Event.update obj dryRun :: rest => Event.update obj dryRun :: writeCalls rest
  | _ :: rest => writeCalls rest

/-! ## Stores and documents used as concrete inputs -/

/-- A document with the given name and spec fields. -/
def mkDoc (name : String) (spec : List (String × Value)) : Unstructured :=
  ⟨[("metadata", Value.map [("name", Value.str name)]), ("spec", Value.map spec)]⟩

/-- The error of a `Get` that finds nothing. -/
def errNotFound : Err := ⟨StatusReason.NotFound, "not found"⟩

/-- An in-memory store: the state is the list of persisted documents, newest
first. `Get` finds the newest document of a name, `Create` and `Update`
persist what they are given and return it, `Delete` removes a name, `List`
returns every document. -/
def memClient : Client (List Unstructured) where
  Get := fun name s =>
    match s.find? (fun d => d.GetName == name) with
    | some d => ((some d, none), s)
    | none => ((none, some errNotFound), s)
  Create := fun u _ s => ((some u, none), u :: s)
  Update := fun obj _ s =>
    match obj with
    | some d => ((some d, none), d :: s)
    | none => ((none, some ⟨StatusReason.Unknown, "nil object"⟩), s)
  Delete := fun name _ s => (none, s.filter (fun d => d.GetName != name))
  List := fun _ s => ((some s, none), s)

/-- Options with no callbacks and no dry-run marker. -/
def noOptions (σ : Type) : Options σ := ⟨[], [], []⟩

/-- A callback that returns nil and leaves the store alone. -/
def okCallback (σ : Type) : Callback σ := fun _ _ s => (CallbackResult.returns none, s)

/-- Options with one succeeding `Pre` and `Post` callback and the dry-run
marker `All`. -/
def okOptions (σ : Type) : Options σ :=
  ⟨[okCallback (σ × Unstructured)], [okCallback (σ × Unstructured)], ["All"]⟩

/-- The answers of a scripted store: what `Get` and `Create` return, and what
the `k`-th `Update` call (counted from 0) returns for the object it is given. -/
structure Script where
  get : Option Unstructured × Option Err
  create : Option Unstructured × Option Err
  update : Nat → Option Unstructured → Option Unstructured × Option Err

/-- A scripted store, in the way of the mock client of the tests: the state
counts the `Update` calls made so far. -/
def scriptClient (p : Script) : Client Nat where
  Get := fun _ n => (p.get, n)
  Create := fun _ _ n => (p.create, n)
  Update := fun obj _ n => (p.update n obj, n + 1)
  Delete := fun _ _ n => (none, n)
  List := fun _ n => ((some [], none), n)

/-- The document `test-obj` with spec `x: 1`. -/
def testObj : Unstructured := mkDoc "test-obj" [("x", Value.int 1)]

/-- The error of the test `apply error`. -/
def errGet : Err := ⟨StatusReason.Unknown, "get error"⟩

/-- The store of the test `apply error`: `Get` returns nil and an error. -/
def getErrorScript : Script :=
  { get := (none, some errGet), create := (none, none), update := fun _ _ => (none, none) }

/-- The condition of the spec's semantic derivative equality, in the spec's
words: every field present in the desired spec is present and equal in the
observed spec. Either the desired document has no spec, so that no field is
present in it, or both documents have a spec section with fields, the two
sections being maps of one Go type, and each field of the desired one is a
field of the observed one with the same value. Fields present only in the
observed spec play no part. -/
def SpecContained (desired observed : Unstructured) : Prop :=
  mapGet desired.Object "spec" = Value.null ∨
  ∃ t m1 m2, mapIndex desired.Object "spec" = some (Value.mapOf t m1) ∧
    mapIndex observed.Object "spec" = some (Value.mapOf t m2) ∧
    ∀ k v, mapIndex m1 k = some v → mapIndex m2 k = some v

/-- A value that `DeepDerivative` compares by equality: a boolean, a number,
or a string that is not empty. -/
def Value.isSetScalar : Value → Bool
  | .boolOf _ _ => true
  | .intOf _ _ => true
  | .strOf _ s => s != ""
  | _ => false

/-- A document `test-obj` with no spec section. -/
def specLessObj : Unstructured :=
  ⟨[("metadata", Value.map [("name", Value.str "test-obj")])]⟩

/-- A document `test-obj` whose spec is a `map[string]string` with the field
`a: b`, as a document built in Go code may hold. -/
def typedSpecObj : Unstructured :=
  ⟨[("metadata", Value.map [("name", Value.str "test-obj")]),
    ("spec", Value.mapOf "map[string]string" [("a", Value.str "b")])]⟩

/-- A document `test-obj` whose spec is a string. -/
def stringSpecObj : Unstructured :=
  ⟨[("metadata", Value.map [("name", Value.str "test-obj")]), ("spec", Value.str "s")]⟩

/-- The `Update` calls of a trace, in order: the submitted objects. -/
def updateCalls : List Event → List (Option Unstructured)
  | [] => []
  | Event.update obj _ :: rest => obj :: updateCalls rest
  | _ :: rest => updateCalls rest

/-- The `Create` calls of a trace, in order: the submitted objects. -/
def createCalls : List Event → List Unstructured
  | [] => []
  | Event.create obj _ :: rest => obj :: createCalls rest
  | _ :: rest => createCalls rest

/-- An observed document `test-obj` with server-managed fields: a resource
version in its metadata, spec `x: 0`, and a status section. -/
def observedObj : Unstructured :=
  ⟨[("metadata", Value.map [("name", Value.str "test-obj"),
      ("resourceVersion", Value.str "41")]),
    ("spec", Value.map [("x", Value.int 0)]),
    ("status", Value.map [("phase", Value.str "Ready")])]⟩

/-- The store of the idempotence guarantee, with nothing else writing to it:
`Get` leaves the store unchanged and returns either the document stored under
the name or a not-found error; `Create` and `Update` succeed, and a `Get` made
right after them returns the document that was submitted. -/
structure StoreContract {σ : Type} (c : Client σ) : Prop where
  get_st : ∀ n s, (c.Get n s).2 = s
  get_res : ∀ n s,
    (∃ d, (c.Get n s).1 = (some d, none) ∧ d.GetName = n) ∨
    (∃ e, (c.Get n s).1.2 = some e ∧ IsNotFound (some e) = true)
  create_persists : ∀ u stages s,
    (∃ r, (c.Create u stages s).1 = (some r, none)) ∧
    (c.Get u.GetName (c.Create u stages s).2).1 = (some u, none)
  update_persists : ∀ d stages s,
    (∃ r, (c.Update (some d) stages s).1 = (some r, none)) ∧
    (c.Get d.GetName (c.Update (some d) stages s).2).1 = (some d, none)

/-- A write-conflict error. -/
def errConflict : Err := ⟨StatusReason.Conflict, "the object has been modified"⟩

/-- An `Update` error that is not a conflict. -/
def errUpdate : Err := ⟨StatusReason.Unknown, "update error"⟩

/-- The simulated store of the conflict-retry property: `Get` returns
`observed`; the first `n` `Update` calls are rejected with a write-conflict
error and return `rejected` as their document (nil for `none`, as a client
does on an error); every later call is accepted and returns `accepted`. -/
def conflictScript (observed : Unstructured) (n : Nat) (rejected : Option Unstructured)
    (accepted : Unstructured) : Script :=
  { get := (some observed, none)
    create := (none, none)
    update := fun k _ =>
      if k < n then (rejected, some errConflict) else (some accepted, none) }

/-- A store whose `Get` returns `observed` and whose every `Update` fails with
`err`, returning `returned` as its document. -/
def updateErrorScript (observed : Unstructured) (returned : Option Unstructured)
    (err : Err) : Script :=
  { get := (some observed, none)
    create := (none, none)
    update := fun _ _ => (returned, some err) }

/-- A document that is neither the desired nor the staged one. -/
def otherObj : Unstructured := mkDoc "other" [("z", Value.int 9)]

/-! ## `deleteObject` -/

/-- Modelled from the spec: the `DeleteOptions` of the operator package,
declared outside `operator.go`: the propagation mode, the `Pre` and `Post`
callbacks and the dry-run markers. -/
structure Operator.DeleteOptions (σ : Type) where
  DeletionPropagation : DeletionPropagation
  Pre : List (Callback σ)
  Post : List (Callback σ)
  DryRun : List String

/-- The function `deleteObject(ctx, i, u, ops)`: one `Delete` call for the name
of `u`, then a `Failed` or a `Deleted` entry carrying `u`. -/
def deleteObject {σ : Type} (i : Client σ) (u : Unstructured)
    (ops : Operator.DeleteOptions σ) (s : σ) : Step σ (PostStatusEntry × Option Err) :=
  let o : DeleteOptions :=
    { DryRun := ops.DryRun, PropagationPolicy := ops.DeletionPropagation }
  let d := i.Delete u.GetName o s
  match d.1 with
  | some err => ⟨(NewPostStatusEntryFailed u, some err), d.2, [Event.delete u.GetName o]⟩
  | none => ⟨(NewPostStatusEntryDeleted u, none), d.2, [Event.delete u.GetName o]⟩

/-- A scripted store for the sweep, in the way of the mock client of the
tests: `List` returns `listErr` when it is set and `items` otherwise; `Delete`
fails with `err` for the names in `failing` and succeeds for the others. The
state counts the `Delete` calls. -/
def sweepClient (items : List Unstructured) (listErr : Option Err)
    (failing : List String) (err : Err) : Client Nat where
  Get := fun _ n => ((none, some errNotFound), n)
  Create := fun u _ n => ((some u, none), n)
  Update := fun obj _ n => ((obj, none), n)
  Delete := fun name _ n => (if name ∈ failing then some err else none, n + 1)
  List := fun _ n =>
    match listErr with
    | some e => ((none, some e), n)
    | none => ((some items, none), n)

/-- The error of the test `list error`. -/
def errList : Err := ⟨StatusReason.Unknown, "list error"⟩

/-- The error of the tests `delete err` and `error delete`. -/
def errDelete : Err := ⟨StatusReason.Unknown, "delete error"⟩

/-- The document `test-obj2` of the sweep tests. -/
def testObj2 : Unstructured := mkDoc "test-obj2" [("x", Value.int 2)]

/-- The options of the test `error delete`: orphan propagation, no callback. -/
def orphanOptions (σ : Type) : Operator.DeleteOptions σ :=
  ⟨DeletionPropagation.Orphan, [], [], []⟩

/-- The store after each callback of the list has been invoked once with
`(v, err)`, in list order, starting from `s`. -/
def afterCallbacks {σ : Type} (v : CallbackArg) (err : Option Err)
    (cbs : List (Callback σ)) (s : σ) : σ :=
  cbs.foldl (fun st cb => (cb v err st).2) s

/-- A callback that appends `id` to the store, a log of the callbacks
invoked, and then ends as `r` says. -/
def logCallback (id : Nat) (r : CallbackResult) : Callback (List Nat) :=
  fun _ _ s => (r, s ++ [id])

/-- The error of the tests `callback error`. -/
def errTest : Err := ⟨StatusReason.Unknown, "test error"⟩

/-- The error of the first callback of the list that fails on `(v, err)`,
that is, returns a non-nil error or panics, when the callbacks run in order
from the store `s`; `none` when no callback fails. -/
def firstCallbackError {σ : Type} (v : CallbackArg) (err : Option Err) :
    List (Callback σ) → σ → Option Err
  | [], _ => none
  | cb :: cbs, s =>
    match (cb v err s).1 with
    | CallbackResult.panics p => some ⟨StatusReason.Unknown, p⟩
    | CallbackResult.returns (some e) => some e
    | CallbackResult.returns none => firstCallbackError v err cbs (cb v err s).2

/-- The status entries handed to callbacks in a trace, in order, each with
the error passed along. -/
def entryCalls : List Event → List (PostStatusEntry × Option Err)
  | [] => []
  | Event.callback (CallbackArg.entry e) err :: rest => (e, err) :: entryCalls rest
  | _ :: rest => entryCalls rest

/-- The status-entry discipline of one pass of the loop of `wipeRemoved` on
`item` from the store `s`: either no `Delete` is issued and no status entry is
fired, or one `Delete` is issued, for the name the loop variable has after the
`Pre` callbacks, and every entry fired (at most one per `Post` callback, at
least one when there is a `Post` callback) is the same entry: the `Failed`
entry of that document with the error of the `Delete` when it failed, the
`Deleted` entry of that document with a nil error when it succeeded. -/
def OneStatusEntry {σ : Type} (i : Client σ) (u : List Unstructured) (opts : Options σ)
    (item : Unstructured) (s : σ) : Prop :=
  (deleteCalls (wipeItem i u opts item s).trace = [] ∧
    entryCalls (wipeItem i u opts item s).trace = []) ∨
  (deleteCalls (wipeItem i u opts item s).trace
      = [((itemAfterPre opts item s).GetName, wipeDeleteOptions opts)] ∧
    ∃ n, n ≤ opts.Post.length ∧ (opts.Post ≠ [] → 1 ≤ n) ∧
      ((∃ err, (i.Delete (itemAfterPre opts item s).GetName (wipeDeleteOptions opts)
            (storeAfterPre opts item s)).1 = some err ∧
          entryCalls (wipeItem i u opts item s).trace
            = List.replicate n (NewPostStatusEntryFailed (itemAfterPre opts item s),
                some err)) ∨
       ((i.Delete (itemAfterPre opts item s).GetName (wipeDeleteOptions opts)
            (storeAfterPre opts item s)).1 = none ∧
          entryCalls (wipeItem i u opts item s).trace
            = List.replicate n (NewPostStatusEntryDeleted (itemAfterPre opts item s),
                none))))

/-- A callback that panics, as in the test `callbacks error`. -/
def panicCallback (σ : Type) : Callback σ :=
  fun _ _ s => (CallbackResult.panics "it is fine", s)

/-- A callback that returns the error of the tests `callback error`. -/
def errCallback (σ : Type) : Callback σ :=
  fun _ _ s => (CallbackResult.returns (some errTest), s)

/-- The document `test-obj3` of the sweep examples. -/
def testObj3 : Unstructured := mkDoc "test-obj3" [("x", Value.int 3)]

/-- The error that `fireCallbacks` makes of the panic of `panicCallback`. -/
def errPanic : Err := ⟨StatusReason.Unknown, "it is fine"⟩

/-- Options whose only callback is a panicking `Post` callback. -/
def panicPostOptions (σ : Type) : Options σ :=
  ⟨[], [panicCallback (σ × Unstructured)], []⟩

/-- Options whose only callback is a `Pre` callback that returns an error. -/
def errPreOptions (σ : Type) : Options σ :=
  ⟨[errCallback (σ × Unstructured)], [], []⟩

/-- A callback that returns nil after it has stored the document `d` in the
variable it was handed a pointer to (`*p = d`), leaving the store alone. -/
def renameCallback (σ : Type) (d : Unstructured) : Callback (σ × Unstructured) :=
  fun _ _ st => (CallbackResult.returns none, (st.1, d))

/-- Options whose only callback is a `Pre` callback that succeeds and stores
`d` in the loop variable of the sweep. -/
def renameOptions (σ : Type) (d : Unstructured) : Options σ :=
  ⟨[renameCallback σ d], [], []⟩


/-! ## `function.go` -/

/-- The constant `functionApiVersion`. -/
def functionApiVersion : String := "serverless.kyma-project.io/v1alpha1"

/-- The constant `propertySource`. -/
def propertySource : String := "source"

/-- The constant `propertyDeps`. -/
def propertyDeps : String := "deps"

/-- The runtime and file name constants that `runtimeMappings` uses and that
are declared outside `function.go` (`types.Nodejs12`, ...,
`workspace.FileNameHandlerJs`, ...), taken as parameters, together with the
name of the Go type `types.Runtime`, the dynamic type of the runtime that
`newFunction` stores in the spec. -/
structure Names where
  RuntimeType : String
  Nodejs12 : String
  Nodejs10 : String
  Python38 : String
  FileNameHandlerJs : String
  FileNamePackageJSON : String
  FileNameHandlerPy : String
  FileNameRequirementsTxt : String

/-- The table `runtimeMappings`, looked up at a runtime: the properties and
the files they are read from, and the empty map for a runtime that is not in
the table. -/
def runtimeMappings (K : Names) (runtime : String) : List (String × String) :=
  if runtime = K.Nodejs12 then
    [(propertySource, K.FileNameHandlerJs), (propertyDeps, K.FileNamePackageJSON)]
  else if runtime = K.Nodejs10 then
    [(propertySource, K.FileNameHandlerJs), (propertyDeps, K.FileNamePackageJSON)]
  else if runtime = K.Python38 then
    [(propertySource, K.FileNameHandlerPy), (propertyDeps, K.FileNameRequirementsTxt)]
  else []

/-- Modelled from the spec: the resource hints of `workspace.Cfg`, declared
outside `function.go`: the requests and the limits, each nil (`none`) or set. -/
structure Resources where
  Requests : Option Value
  Limits : Option Value

/-- Modelled from the spec: `workspace.Cfg`, declared outside `function.go`,
with the fields `newFunction` reads: the name, the label set, the runtime, the
source layout and the resource hints. -/
structure Cfg where
  Name : String
  Labels : List (String × String)
  Runtime : String
  SourcePath : String
  Resources : Resources

/-- The type `ReadFile`: the content of a file and an error. -/
abbrev ReadFile := String → String × Option Err

/-- The loop `for key, value := range runtimeMappings[cfg.Runtime]` of
`newFunction` over the entries in the order the range visits them: a read
error ends it, an empty file is skipped, any other content is stored in the
spec under the property. `pathJoin` is `path.Join`. -/
def readFiles (readFile : ReadFile) (pathJoin : String → String → String)
    (sourcePath : String) :
    List (String × String) → List (String × Value) → Option Err × List (String × Value)
  | [], spec => (none, spec)
  | (key, value) :: rest, spec =>
    match readFile (pathJoin sourcePath value) with
    | (_, some err) => (some err, spec)
    | (data, none) =>
      if data = "" then readFiles readFile pathJoin sourcePath rest spec
      else readFiles readFile pathJoin sourcePath rest (mapAssign spec key (Value.str data))

/-- The map `resources` that `newFunction` builds from the resource hints:
nil when neither is set. -/
def resourcesOf (r : Resources) : Option (List (String × Value)) :=
  let resources : Option (List (String × Value)) :=
    match r.Requests with
    | some rq => some [("requests", rq)]
    | none => none
  match r.Limits with
  | some lm => some (mapAssign (resources.getD []) "limits" lm)
  | none => resources

/-- The metadata section that `newFunction` writes. -/
def functionMetadata (cfg : Cfg) (refs : List (List (String × Value))) : Value :=
  Value.map [("name", Value.str cfg.Name),
    ("labels", Value.mapOf "map[string]string"
      (cfg.Labels.map (fun kv => (kv.1, Value.str kv.2)))),
    ("ownerReferences", Value.listOf "[]map[string]interface {}" (refs.map Value.map))]

/-- The function `newFunction(cfg, readFile, refs...)`. A Go map is ranged over
in an order that is not fixed: `rangeOrder` gives the order in which the range
visits the entries of the mapping. The empty document is `Unstructured{}`. -/
def newFunction (K : Names) (rangeOrder : List (String × String) → List (String × String))
    (pathJoin : String → String → String) (cfg : Cfg) (readFile : ReadFile)
    (refs : List (List (String × Value))) : Unstructured × Option Err :=
  match readFiles readFile pathJoin cfg.SourcePath
      (rangeOrder (runtimeMappings K cfg.Runtime)) [("runtime", Value.strOf K.RuntimeType cfg.Runtime)] with
  | (some err, _) => (⟨[]⟩, some err)
  | (none, spec) =>
    let spec2 :=
      match resourcesOf cfg.Resources with
      | some resources => mapAssign spec "resources" (Value.map resources)
      | none => spec
    (⟨[("apiVersion", Value.str functionApiVersion), ("kind", Value.str "Function"),
        ("metadata", functionMetadata cfg refs), ("spec", Value.map spec2)]⟩, none)

/-- Names for concrete inputs, with `types.Runtime` taken as an alias of
`string`. -/
def upstreamNames : Names :=
  { RuntimeType := "string", Nodejs12 := "nodejs12", Nodejs10 := "nodejs10", Python38 := "python38"
    FileNameHandlerJs := "handler.js", FileNamePackageJSON := "package.json"
    FileNameHandlerPy := "handler.py", FileNameRequirementsTxt := "requirements.txt" }

/-- A join of a directory and a file name with a slash, for concrete inputs. -/
def slashJoin (dir file : String) : String := dir ++ "/" ++ file

/-- A reader that finds the handler and an empty `package.json` under `src`,
and fails on every other path. -/
def demoReader : ReadFile := fun path =>
  if path = "src/handler.js" then ("module.exports = {}", none)
  else if path = "src/package.json" then ("", none)
  else ("", some ⟨StatusReason.Unknown, "no such file"⟩)

/-- A configuration of a `nodejs12` function under `src` with limits set. -/
def demoCfg : Cfg :=
  { Name := "demo", Labels := [("app", "demo")], Runtime := "nodejs12", SourcePath := "src"
    Resources := { Requests := none, Limits := some (Value.map [("cpu", Value.str "1")]) } }

/-- The configuration `demoCfg` with the runtime `python38`, whose files
`demoReader` cannot read. -/
def demoPyCfg : Cfg := { demoCfg with Runtime := "python38" }

/-! ## Theorems -/

theorem deleteCalls_append (a b : List Event) :
    deleteCalls (a ++ b) = deleteCalls a ++ deleteCalls b := by
  induction a with
  | nil => rfl
  | cons e a ih => cases e <;> simp [deleteCalls, ih]

theorem deleteCalls_fireCallbacks {σ : Type} (v : CallbackArg) (err : Option Err)
    (cbs : List (Callback σ)) (s : σ) :
    deleteCalls (fireCallbacks v err cbs s).trace = [] := by
  induction cbs generalizing s with
  | nil => rfl
  | cons cb cbs ih =>
    simp only [fireCallbacks]
    split
    · rfl
    · simp [deleteCalls, ih]

theorem fireCallbacks_keeps_item {σ : Type} (v : CallbackArg) (err : Option Err)
    (cbs : List (Callback (σ × Unstructured))) (st : σ × Unstructured)
    (hpure : ∀ cb ∈ cbs, ∀ w e x, (cb w e x).2.2 = x.2) :
    (fireCallbacks v err cbs st).st.2 = st.2 := by
  induction cbs generalizing st with
  | nil => rfl
  | cons cb cbs ih =>
    have h1 := hpure cb (List.mem_cons_self _ _) v err st
    have h2 := ih (cb v err st).2 (fun c hc => hpure c (List.mem_cons_of_mem _ hc))
    simp only [fireCallbacks]
    split
    · exact h1
    · exact h2.trans h1

theorem itemAfterPre_of_keeps {σ : Type} (opts : Options σ) (item : Unstructured) (s : σ)
    (hpure : ∀ cb ∈ opts.Pre, ∀ w e x, (cb w e x).2.2 = x.2) :
    itemAfterPre opts item s = item :=
  fireCallbacks_keeps_item (CallbackArg.obj item) none opts.Pre (s, item) hpure

theorem deleteCalls_wipeItem {σ : Type} (i : Client σ) (u : List Unstructured)
    (opts : Options σ) (item : Unstructured) (s : σ) :
    deleteCalls (wipeItem i u opts item s).trace = [] ∨
    (contains u item.GetName = false ∧
      deleteCalls (wipeItem i u opts item s).trace
        = [((itemAfterPre opts item s).GetName, wipeDeleteOptions opts)]) := by
  cases hc : contains u item.GetName with
  | true => left; simp [wipeItem, hc, deleteCalls]
  | false =>
    cases hpre : (fireCallbacks (CallbackArg.obj item) none opts.Pre (s, item)).val with
    | some e => left; simp [wipeItem, hc, hpre, deleteCalls_fireCallbacks]
    | none =>
      right
      refine ⟨rfl, ?_⟩
      simp only [wipeItem, hc, hpre, Bool.false_eq_true, if_false, itemAfterPre]
      cases hd : (i.Delete
          (fireCallbacks (CallbackArg.obj item) none opts.Pre (s, item)).st.2.GetName
          (wipeDeleteOptions opts)
          (fireCallbacks (CallbackArg.obj item) none opts.Pre (s, item)).st.1).1 with
      | none =>
        simp [deleteCalls_append, deleteCalls, deleteCalls_fireCallbacks]
      | some derr =>
        split <;>
          simp [deleteCalls_append, deleteCalls, deleteCalls_fireCallbacks]

theorem deleteCalls_wipeItems {σ : Type} (i : Client σ) (u : List Unstructured)
    (opts : Options σ) (items : List Unstructured) (s : σ) :
    ∀ x ∈ deleteCalls (wipeItems i u opts items s).trace,
      ∃ item ∈ items, ∃ s0, contains u item.GetName = false ∧
        x = ((itemAfterPre opts item s0).GetName, wipeDeleteOptions opts) := by
  induction items generalizing s with
  | nil => intro x hx; simp [wipeItems, deleteCalls] at hx
  | cons item rest ih =>
    intro x hx
    simp only [wipeItems] at hx
    have hitem := deleteCalls_wipeItem i u opts item s
    split at hx
    · rcases hitem with h0 | ⟨hc, h1⟩
      · simp [h0] at hx
      · simp only [h1, List.mem_singleton] at hx
        exact ⟨item, List.mem_cons_self _ _, s, hc, hx⟩
    · simp only [deleteCalls_append, List.mem_append] at hx
      rcases hx with hx | hx
      · rcases hitem with h0 | ⟨hc, h1⟩
        · simp [h0] at hx
        · simp only [h1, List.mem_singleton] at hx
          exact ⟨item, List.mem_cons_self _ _, s, hc, hx⟩
      · obtain ⟨it, hit, s0, hc, hxe⟩ := ih _ x hx
        exact ⟨it, List.mem_cons_of_mem _ hit, s0, hc, hxe⟩

theorem contains_eq_false_iff (u : List Unstructured) (name : String) :
    contains u name = false ↔ ∀ d ∈ u, d.GetName ≠ name := by
  simp [contains]

/-- C1, amended. No false deletes when no `Pre` callback writes through the
pointer it is handed: if every `Pre` callback leaves the loop variable of the
sweep as it found it, every name that `wipeRemoved` passes to `Delete` is the
name of an item returned by the owner-label `List` call (selector
`<owner label>=<ownerID>`, made on the initial store) and is the name of no
document of the desired set. Hence a document that the `List` did not return,
or whose name is in the desired set, is never passed to `Delete`. -/
theorem wipeRemoved_no_false_delete {σ : Type} (message : String) (i : Client σ)
    (u : List Unstructured) (ownerID : String) (opts : Options σ) (s : σ)
    (name : String)
    (hpure : ∀ cb ∈ opts.Pre, ∀ w e x, (cb w e x).2.2 = x.2)
    (h : name ∈ (deleteCalls (wipeRemoved message i u ownerID opts s).trace).map Prod.fst) :
    (∃ items, (i.List (ownerSelector message ownerID) s).1 = (some items, none) ∧
      ∃ item ∈ items, item.GetName = name) ∧
    (∀ d ∈ u, d.GetName ≠ name) := by
  unfold wipeRemoved at h
  cases hl2 : (i.List (ownerSelector message ownerID) s).1.2 with
  | some e => simp [hl2, deleteCalls] at h
  | none =>
    cases hl1 : (i.List (ownerSelector message ownerID) s).1.1 with
    | none => simp [hl2, hl1, deleteCalls] at h
    | some items =>
      simp only [hl2, hl1, deleteCalls, List.mem_map] at h
      obtain ⟨x, hx, hxn⟩ := h
      obtain ⟨item, hitem, s0, hc, hxe⟩ := deleteCalls_wipeItems i u opts items _ x hx
      rw [itemAfterPre_of_keeps opts item s0 hpure] at hxe
      subst hxe
      refine ⟨⟨items, ?_, item, hitem, hxn⟩, ?_⟩
      · exact Prod.ext hl1 hl2
      · rw [← hxn]
        exact (contains_eq_false_iff u item.GetName).mp hc

/-- C1 at a concrete input: the store lists `child1` and `child2`, the desired
set holds `child1`, the `Pre` callback leaves its argument alone; `child2` is
deleted, and it is listed and not desired. -/
theorem wipeRemoved_no_false_delete_witness :
    (∃ items, (memClient.List (ownerSelector "owner" "P")
        [mkDoc "child1" [], mkDoc "child2" []]).1 = (some items, none) ∧
      ∃ item ∈ items, item.GetName = "child2") ∧
    (∀ d ∈ [mkDoc "child1" []], d.GetName ≠ "child2") :=
  wipeRemoved_no_false_delete "owner" memClient [mkDoc "child1" []] "P"
    (okOptions _) [mkDoc "child1" [], mkDoc "child2" []] "child2"
    (fun cb h w e x => by
      simp only [okOptions, List.mem_singleton] at h
      subst h
      rfl)
    (by decide)

/-- C1 as worded fails for a callback set with a `Pre` callback that renames
the document it is handed. The store lists `child1` and `child2`, the desired
set holds `child1`, and the only `Pre` callback stores `child1` in the loop
variable and returns nil. The sweep then passes to `Delete` the one name
`child1`, a name of the desired set: the desired document is deleted and the
removed one stays in the store. -/
theorem wipeRemoved_false_delete_counterexample :
    deleteCalls (wipeRemoved "owner" memClient [mkDoc "child1" []] "P"
      (renameOptions _ (mkDoc "child1" []))
      [mkDoc "child1" [], mkDoc "child2" []]).trace
      = [("child1", ⟨[], DeletionPropagation.Background⟩)] ∧
    contains [mkDoc "child1" []] "child1" = true ∧
    (wipeRemoved "owner" memClient [mkDoc "child1" []] "P"
      (renameOptions _ (mkDoc "child1" []))
      [mkDoc "child1" [], mkDoc "child2" []]).out = Outcome.ret none ∧
    (wipeRemoved "owner" memClient [mkDoc "child1" []] "P"
      (renameOptions _ (mkDoc "child1" []))
      [mkDoc "child1" [], mkDoc "child2" []]).st = [mkDoc "child2" []] := by
  refine ⟨by decide, by decide, rfl, rfl⟩

theorem fireCallbacks_val_of_ok {σ : Type} (v : CallbackArg) (err : Option Err)
    (cbs : List (Callback σ)) (s : σ)
    (hcb : ∀ cb ∈ cbs, ∀ st, (cb v err st).1 = CallbackResult.returns none) :
    (fireCallbacks v err cbs s).val = err := by
  induction cbs generalizing s with
  | nil => rfl
  | cons cb cbs ih =>
    have h1 := hcb cb (List.mem_cons_self _ _) s
    have h2 := ih (cb v err s).2 (fun c hc st => hcb c (List.mem_cons_of_mem _ hc) st)
    simp only [fireCallbacks, h1]
    exact h2

theorem wipeItem_of_ok {σ : Type} (i : Client σ) (u : List Unstructured)
    (opts : Options σ) (item : Unstructured) (s : σ)
    (hdel : ∀ name o st, (i.Delete name o st).1 = none)
    (hpre : ∀ cb ∈ opts.Pre, ∀ v st, (cb v none st).1 = CallbackResult.returns none)
    (hpost : ∀ cb ∈ opts.Post, ∀ v st, (cb v none st).1 = CallbackResult.returns none) :
    (wipeItem i u opts item s).val = none ∧
    deleteCalls (wipeItem i u opts item s).trace =
      if contains u item.GetName then []
      else [((itemAfterPre opts item s).GetName, wipeDeleteOptions opts)] := by
  cases hc : contains u item.GetName with
  | true => simp [wipeItem, hc, deleteCalls]
  | false =>
    have h1 := fireCallbacks_val_of_ok (CallbackArg.obj item) none opts.Pre (s, item)
      (fun cb hcb st => hpre cb hcb _ st)
    have h2 := hdel (fireCallbacks (CallbackArg.obj item) none opts.Pre (s, item)).st.2.GetName
      (wipeDeleteOptions opts)
      (fireCallbacks (CallbackArg.obj item) none opts.Pre (s, item)).st.1
    have h3 := fun d st => fireCallbacks_val_of_ok
      (CallbackArg.entry (NewPostStatusEntryDeleted d)) none opts.Post st
      (fun cb hcb st => hpost cb hcb _ st)
    simp [wipeItem, hc, h1, h2, h3, deleteCalls_append, deleteCalls,
      deleteCalls_fireCallbacks, itemAfterPre]

theorem wipeItems_of_ok {σ : Type} (i : Client σ) (u : List Unstructured)
    (opts : Options σ) (items : List Unstructured) (s : σ)
    (hdel : ∀ name o st, (i.Delete name o st).1 = none)
    (hpre : ∀ cb ∈ opts.Pre, ∀ v st, (cb v none st).1 = CallbackResult.returns none)
    (hpost : ∀ cb ∈ opts.Post, ∀ v st, (cb v none st).1 = CallbackResult.returns none)
    (hpure : ∀ cb ∈ opts.Pre, ∀ w e x, (cb w e x).2.2 = x.2) :
    (wipeItems i u opts items s).val = none ∧
    deleteCalls (wipeItems i u opts items s).trace =
      (items.filter (fun item => !contains u item.GetName)).map
        (fun item => (item.GetName, wipeDeleteOptions opts)) := by
  induction items generalizing s with
  | nil => simp [wipeItems, deleteCalls]
  | cons item rest ih =>
    obtain ⟨hv, ht⟩ := wipeItem_of_ok i u opts item s hdel hpre hpost
    rw [itemAfterPre_of_keeps opts item s hpure] at ht
    obtain ⟨hv2, ht2⟩ := ih (wipeItem i u opts item s).st
    simp only [wipeItems, hv, hv2, deleteCalls_append, ht, ht2, true_and]
    cases hc : contains u item.GetName <;> simp [hc]

/-- C10, amended. Completeness of the sweep when no `Pre` callback writes
through the pointer it is handed: when the owner-label `List` returns `items`,
every `Delete` succeeds, every callback returns nil without faulting and every
`Pre` callback leaves the loop variable of the sweep as it found it,
`wipeRemoved` returns nil and its `Delete` calls are exactly, in list order,
one call for each listed item whose name is absent from the desired set, made
for that name with background propagation and the configured dry-run
markers. -/
theorem wipeRemoved_sweep_complete {σ : Type} (message : String) (i : Client σ)
    (u : List Unstructured) (ownerID : String) (opts : Options σ) (s : σ)
    (items : List Unstructured)
    (hlist : (i.List (ownerSelector message ownerID) s).1 = (some items, none))
    (hdel : ∀ name o st, (i.Delete name o st).1 = none)
    (hcb : ∀ cb ∈ opts.Pre ++ opts.Post, ∀ v st,
      (cb v none st).1 = CallbackResult.returns none)
    (hpure : ∀ cb ∈ opts.Pre, ∀ w e x, (cb w e x).2.2 = x.2) :
    (wipeRemoved message i u ownerID opts s).out = Outcome.ret none ∧
    deleteCalls (wipeRemoved message i u ownerID opts s).trace =
      (items.filter (fun item => !contains u item.GetName)).map
        (fun item => (item.GetName,
          ({ DryRun := opts.DryRun,
             PropagationPolicy := DeletionPropagation.Background } : DeleteOptions))) := by
  have hpre : ∀ cb ∈ opts.Pre, ∀ v st, (cb v none st).1 = CallbackResult.returns none :=
    fun cb h => hcb cb (List.mem_append_left _ h)
  have hpost : ∀ cb ∈ opts.Post, ∀ v st, (cb v none st).1 = CallbackResult.returns none :=
    fun cb h => hcb cb (List.mem_append_right _ h)
  have hl1 : (i.List (ownerSelector message ownerID) s).1.1 = some items := by rw [hlist]
  have hl2 : (i.List (ownerSelector message ownerID) s).1.2 = none := by rw [hlist]
  obtain ⟨hv, ht⟩ := wipeItems_of_ok i u opts items
    (i.List (ownerSelector message ownerID) s).2 hdel hpre hpost hpure
  simp only [wipeRemoved, hl1, hl2, hv, deleteCalls, ht, true_and]
  rfl

/-- C10 at the scenario of the spec: the store lists `child1` and `child2`,
the desired set holds `child1`, one `Pre` and one `Post` callback succeed and
leave their argument alone; the only `Delete` call is the one for `child2`,
with background propagation. -/
theorem wipeRemoved_sweep_complete_witness :
    (wipeRemoved "owner" memClient [mkDoc "child1" []] "P" (okOptions _)
      [mkDoc "child1" [], mkDoc "child2" []]).out = Outcome.ret none ∧
    deleteCalls (wipeRemoved "owner" memClient [mkDoc "child1" []] "P" (okOptions _)
      [mkDoc "child1" [], mkDoc "child2" []]).trace =
      ([mkDoc "child1" [], mkDoc "child2" []].filter
        (fun item => !contains [mkDoc "child1" []] item.GetName)).map
        (fun item => (item.GetName,
          ({ DryRun := (okOptions (List Unstructured)).DryRun,
             PropagationPolicy := DeletionPropagation.Background } : DeleteOptions))) :=
  wipeRemoved_sweep_complete "owner" memClient [mkDoc "child1" []] "P" (okOptions _)
    [mkDoc "child1" [], mkDoc "child2" []] [mkDoc "child1" [], mkDoc "child2" []]
    rfl (fun _ _ _ => rfl)
    (fun cb h v st => by
      simp only [okOptions, List.cons_append, List.nil_append, List.mem_cons,
        List.mem_singleton, or_self, List.not_mem_nil, or_false] at h
      subst h
      rfl)
    (fun cb h w e x => by
      simp only [okOptions, List.mem_singleton] at h
      subst h
      rfl)

/-- C10 as worded fails when a callback that does not fail renames the
document it is handed. The `List` returns `test-obj2` and `test-obj3`, the
desired set is empty, every `Delete` succeeds, and the only callback, a `Pre`
callback, stores `test-obj` in the loop variable and returns nil. The sweep
returns nil, yet its two `Delete` calls are both made for `test-obj`: neither
listed item is deleted once. -/
theorem wipeRemoved_sweep_renamed_counterexample :
    (wipeRemoved "owner" (sweepClient [testObj2, testObj3] none [] errDelete) [] "P"
      (renameOptions _ testObj) 0).out = Outcome.ret none ∧
    deleteCalls (wipeRemoved "owner" (sweepClient [testObj2, testObj3] none [] errDelete)
      [] "P" (renameOptions _ testObj) 0).trace
      = [("test-obj", ⟨[], DeletionPropagation.Background⟩),
         ("test-obj", ⟨[], DeletionPropagation.Background⟩)] ∧
    ([testObj2, testObj3].filter (fun item => !contains [] item.GetName)).map
        (fun item => item.GetName) = ["test-obj2", "test-obj3"] := by
  refine ⟨rfl, by decide, by decide⟩

/-! ### `applyObject`: fetch failure and create path -/

/-- C9. Fetch failure: when `Get` fails with an error `e`, (1) if `e` is not
a not-found error, `applyObject` returns `e` itself with a `Failed` entry
carrying the desired document, and its only store call is the `Get` (neither
`Create` nor `Update`); (2) if `e` is a not-found error, the error that
`applyObject` returns is the result of the `Create` call (nil when it
succeeded), so the not-found error of `Get` is not returned. -/
theorem applyObject_fetch_failure {σ : Type} (c : Client σ) (u : Unstructured)
    (stages : List String) (s : σ) (e : Err)
    (hget : (c.Get u.GetName s).1.2 = some e) :
    (IsNotFound (some e) = false →
      (applyObject c u stages s).out
        = Outcome.ret (some u, NewPostStatusEntryFailed u, some e) ∧
      (applyObject c u stages s).trace = [Event.get u.GetName]) ∧
    (IsNotFound (some e) = true →
      ∀ r, (applyObject c u stages s).out = Outcome.ret r →
        r.2.2 = (c.Create u stages (c.Get u.GetName s).2).1.2) := by
  constructor
  · intro hnf
    simp [applyObject, hget, hnf]
  · intro hnf r hr
    simp only [applyObject, hget, hnf, Option.isSome_some, Bool.not_true, Bool.and_false,
      Bool.false_eq_true, if_false] at hr
    cases hc2 : (c.Create u stages (c.Get u.GetName s).2).1.2 with
    | some e2 =>
      simp only [hc2] at hr
      cases hr
      rfl
    | none =>
      simp only [hc2] at hr
      cases hc1 : (c.Create u stages (c.Get u.GetName s).2).1.1 with
      | none => simp [hc1] at hr
      | some d =>
        simp only [hc1] at hr
        cases hr
        rfl

/-- C5. Create path: when `Get` reports not-found, the store calls of
`applyObject` are the `Get` followed by exactly one `Create` of the desired
document with the dry-run stages, and no `Update`; if that `Create` returns a
document and a nil error, the result is that document, a `Created` entry
carrying it and a nil error; if it returns an error, the result is a `Failed`
entry carrying the desired document together with that error. -/
theorem applyObject_create_path {σ : Type} (c : Client σ) (u : Unstructured)
    (stages : List String) (s : σ) (e : Err)
    (hget : (c.Get u.GetName s).1.2 = some e)
    (hnf : IsNotFound (some e) = true) :
    (applyObject c u stages s).trace = [Event.get u.GetName, Event.create u stages] ∧
    (∀ d, (c.Create u stages (c.Get u.GetName s).2).1 = (some d, none) →
      (applyObject c u stages s).out
        = Outcome.ret (some d, NewStatusEntryCreated d, none)) ∧
    (∀ r e2, (c.Create u stages (c.Get u.GetName s).2).1 = (r, some e2) →
      (applyObject c u stages s).out
        = Outcome.ret (some u, NewPostStatusEntryFailed u, some e2)) := by
  refine ⟨?_, ?_, ?_⟩
  · simp only [applyObject, hget, hnf, Option.isSome_some, Bool.not_true, Bool.and_false,
      Bool.false_eq_true, if_false]
    cases hc2 : (c.Create u stages (c.Get u.GetName s).2).1.2 with
    | some e2 => rfl
    | none =>
      cases hc1 : (c.Create u stages (c.Get u.GetName s).2).1.1 <;> rfl
  · intro d hd
    have h1 : (c.Create u stages (c.Get u.GetName s).2).1.1 = some d := by rw [hd]
    have h2 : (c.Create u stages (c.Get u.GetName s).2).1.2 = none := by rw [hd]
    simp [applyObject, hget, hnf, h1, h2]
  · intro r e2 hd
    have h2 : (c.Create u stages (c.Get u.GetName s).2).1.2 = some e2 := by rw [hd]
    simp [applyObject, hget, hnf, h2]

/-- C9 at the input of the test `apply error`: `Get` returns an error that is
not a not-found error. -/
theorem applyObject_fetch_failure_witness :
    (applyObject (scriptClient getErrorScript) testObj [] 0).out
      = Outcome.ret (some testObj, NewPostStatusEntryFailed testObj, some errGet) ∧
    (applyObject (scriptClient getErrorScript) testObj [] 0).trace
      = [Event.get testObj.GetName] :=
  (applyObject_fetch_failure (scriptClient getErrorScript) testObj [] 0 errGet rfl).1 rfl

/-- C5 at the scenario of the spec: the store is empty, `Create` is called
once with the desired document and the entry is `Created`. -/
theorem applyObject_create_path_witness :
    (applyObject memClient testObj [] []).trace
      = [Event.get testObj.GetName, Event.create testObj []] ∧
    (applyObject memClient testObj [] []).out
      = Outcome.ret (some testObj, NewStatusEntryCreated testObj, none) :=
  ⟨(applyObject_create_path memClient testObj [] [] errNotFound rfl rfl).1,
   (applyObject_create_path memClient testObj [] [] errNotFound rfl rfl).2.1 testObj rfl⟩

/-! ### Semantic derivative equality -/

theorem mapIndex_isSome_iff (m : List (String × Value)) (k : String) :
    (∃ v, mapIndex m k = some v) ↔ k ∈ m.map Prod.fst := by
  induction m with
  | nil => simp [mapIndex]
  | cons kv rest ih =>
    obtain ⟨k0, v0⟩ := kv
    by_cases h : k0 = k
    · simp [mapIndex, h]
    · have h2 : ¬ k = k0 := fun e => h e.symm
      simp [mapIndex, h, h2, ih]

theorem mapIndex_append_of_not_mem (pre post : List (String × Value)) (k : String)
    (v : Value) (h : k ∉ pre.map Prod.fst) :
    mapIndex (pre ++ (k, v) :: post) k = some v := by
  induction pre with
  | nil => simp [mapIndex]
  | cons kv pre ih =>
    obtain ⟨k0, v0⟩ := kv
    simp only [List.map_cons, List.mem_cons, not_or] at h
    have h0 : ¬ k0 = k := fun e => h.1 e.symm
    simp [mapIndex, h0, ih h.2]

theorem mapLen_le_of_contained (m1 m2 : List (String × Value))
    (h : ∀ k v, mapIndex m1 k = some v → ∃ w, mapIndex m2 k = some w) :
    mapLen m1 ≤ mapLen m2 := by
  unfold mapLen
  apply List.Subperm.length_le
  apply List.subperm_of_subset (List.nodup_dedup _)
  intro k hk
  rw [List.mem_dedup] at hk ⊢
  obtain ⟨v, hv⟩ := (mapIndex_isSome_iff m1 k).mpr hk
  exact (mapIndex_isSome_iff m2 k).mp (h k v hv)

theorem deriveMap_of_fields (m2 : List (String × Value)) (rest : List (String × Value)) :
    ∀ seen : List String,
    (∀ pre k v post, rest = pre ++ (k, v) :: post → k ∉ seen → k ∉ pre.map Prod.fst →
      ∃ w, mapIndex m2 k = some w ∧ deepValueDerive v w = Outcome.ret true) →
    deriveMap seen rest m2 = Outcome.ret true := by
  induction rest with
  | nil => intro seen _; simp [deriveMap]
  | cons kv rest ih =>
    obtain ⟨k0, v0⟩ := kv
    intro seen h
    have htail : deriveMap (k0 :: seen) rest m2 = Outcome.ret true := by
      apply ih
      intro pre k v post hrest hseen hpre
      simp only [List.mem_cons, not_or] at hseen
      apply h ((k0, v0) :: pre) k v post (by simp [hrest]) hseen.2
      simp only [List.map_cons, List.mem_cons, not_or]
      exact ⟨hseen.1, hpre⟩
    simp only [deriveMap, htail]
    by_cases hs : k0 ∈ seen
    · simp [hs]
    · obtain ⟨w, hw, hd⟩ := h [] k0 v0 rest rfl hs (by simp)
      simp [hs, hw, hd]

/-- When the key loop of the map case ends with true, every key of the left
map that was not visited before is a key of the right map, with a matching
value. -/
theorem deriveMap_fields_of_true (m2 : List (String × Value))
    (rest : List (String × Value)) :
    ∀ seen : List String, deriveMap seen rest m2 = Outcome.ret true →
      ∀ k v, k ∉ seen → mapIndex rest k = some v →
        ∃ w, mapIndex m2 k = some w ∧ deepValueDerive v w = Outcome.ret true := by
  induction rest with
  | nil => intro seen _ k v _ hv; simp [mapIndex] at hv
  | cons kv rest ih =>
    obtain ⟨k0, v0⟩ := kv
    intro seen h k v hk hv
    simp only [deriveMap] at h
    by_cases hs : k0 ∈ seen
    · simp only [hs, if_true] at h
      have hne : ¬ k0 = k := fun e => hk (e ▸ hs)
      simp only [mapIndex, hne, if_false] at hv
      exact ih (k0 :: seen) h k v (by simp [hk, Ne.symm hne]) hv
    · simp only [hs, if_false] at h
      cases hm : mapIndex m2 k0 with
      | none => simp [hm] at h
      | some w =>
        simp only [hm] at h
        cases hd : deepValueDerive v0 w with
        | panic => simp [hd] at h
        | ret b =>
          cases b with
          | false => simp [hd] at h
          | true =>
            simp only [hd] at h
            by_cases hkk : k0 = k
            · subst hkk
              simp only [mapIndex, if_true] at hv
              cases hv
              exact ⟨w, hm, hd⟩
            · simp only [mapIndex, hkk, if_false] at hv
              exact ih (k0 :: seen) h k v (by simp [hk, Ne.symm hkk]) hv

mutual
theorem deepValueDerive_refl : (v : Value) → deepValueDerive v v = Outcome.ret true
  | .null => rfl
  | .boolOf _ b => by simp [deepValueDerive]
  | .intOf _ n => by simp [deepValueDerive]
  | .strOf _ s => by simp [deepValueDerive]
  | .listOf _ xs => by simp [deepValueDerive, deriveSlice_refl xs]
  | .mapOf _ m => by
    have hm : deriveMap [] m m = Outcome.ret true := by
      apply deriveMap_of_fields
      intro pre k v post hrest _ hpre
      refine ⟨v, ?_, deepValueDerive_refl_fields m k v ?_⟩
      · rw [hrest]; exact mapIndex_append_of_not_mem pre post k v hpre
      · rw [hrest]; simp
    simp [deepValueDerive, hm]
theorem deriveSlice_refl : (xs : List Value) → deriveSlice xs xs = Outcome.ret true
  | [] => rfl
  | x :: xs => by simp [deriveSlice, deepValueDerive_refl x, deriveSlice_refl xs]
theorem deepValueDerive_refl_fields : (m : List (String × Value)) →
    ∀ k v, (k, v) ∈ m → deepValueDerive v v = Outcome.ret true
  | [] => by simp
  | (k0, v0) :: rest => by
    intro k v h
    rcases List.mem_cons.mp h with h | h
    · cases h; exact deepValueDerive_refl v0
    · exact deepValueDerive_refl_fields rest k v h
end

/-- A map that holds every field of another one of its type with the same
value is a semantic derivative of it. -/
theorem deepValueDerive_of_contained (t : String) (m1 m2 : List (String × Value))
    (h : ∀ k v, mapIndex m1 k = some v → mapIndex m2 k = some v) :
    deepValueDerive (Value.mapOf t m1) (Value.mapOf t m2) = Outcome.ret true := by
  have hlen := mapLen_le_of_contained m1 m2 (fun k v hv => ⟨v, h k v hv⟩)
  have hm : deriveMap [] m1 m2 = Outcome.ret true := by
    apply deriveMap_of_fields
    intro pre k v post hrest _ hpre
    refine ⟨v, h k v ?_, deepValueDerive_refl v⟩
    rw [hrest]; exact mapIndex_append_of_not_mem pre post k v hpre
  simp [deepValueDerive, Nat.not_lt.mpr hlen, hm]

/-- A value compared by equality matches only itself. -/
theorem deepValueDerive_setScalar (v w : Value) (hv : v.isSetScalar = true)
    (h : deepValueDerive v w = Outcome.ret true) : w = v := by
  cases v <;> cases w <;> simp_all [deepValueDerive, Value.isSetScalar]

/-- When the desired spec is a semantic derivative of the observed one, both
being maps, the maps have one type and every field of the desired spec is a
field of the observed one, with the same value when that value is compared by
equality. -/
theorem fields_of_deepValueDerive (t1 t2 : String) (m1 m2 : List (String × Value))
    (h : deepValueDerive (Value.mapOf t1 m1) (Value.mapOf t2 m2) = Outcome.ret true) :
    t1 = t2 ∧ ∀ k v, mapIndex m1 k = some v →
      ∃ w, mapIndex m2 k = some w ∧ (v.isSetScalar = true → w = v) := by
  simp only [deepValueDerive] at h
  by_cases ht : t1 = t2
  · refine ⟨ht, ?_⟩
    intro k v hk
    cases m1 with
    | nil => simp [mapIndex] at hk
    | cons kv rest =>
      simp only [ht, bne_self_eq_false, Bool.false_eq_true, if_false, List.isEmpty_cons] at h
      by_cases hl : mapLen m2 < mapLen (kv :: rest)
      · simp [hl] at h
      · simp only [hl, if_false] at h
        obtain ⟨w, hw, hd⟩ := deriveMap_fields_of_true m2 (kv :: rest) [] h k v (by simp) hk
        exact ⟨w, hw, fun hs => deepValueDerive_setScalar v w hs hd⟩
  · have hb : (t1 != t2) = true := by simp [ht]
    simp [hb] at h

/-! ### `applyObject`: skip and update paths -/

theorem DeepDerivative_eq_deepValueDerive (a1 a2 : Value) :
    DeepDerivative a1 a2 = deepValueDerive a1 a2 := by
  cases a1 <;> cases a2 <;> simp [DeepDerivative, deepValueDerive]

theorem DeepDerivative_of_contained (u observed : Unstructured)
    (h : SpecContained u observed) :
    DeepDerivative (mapGet u.Object "spec") (mapGet observed.Object "spec")
      = Outcome.ret true := by
  rcases h with h0 | ⟨t, m1, m2, h1, h2, hf⟩
  · simp [h0, DeepDerivative]
  · simp [mapGet, h1, h2, DeepDerivative, deepValueDerive_of_contained t m1 m2 hf]

/-- C3, amended. Skip path: when `Get` returns the observed document without
error and every field present in the desired spec is present and equal in the
observed spec (fields present only in the observed spec are ignored), where
either the desired document has no spec or both specs are field maps of one Go
type, `applyObject` returns the observed document, a `Skipped` entry carrying
the observed document and a nil error, and its only store call is the `Get`:
neither `Create` nor `Update` is called. -/
theorem applyObject_skip {σ : Type} (c : Client σ) (u : Unstructured)
    (stages : List String) (s : σ) (observed : Unstructured)
    (hget : (c.Get u.GetName s).1 = (some observed, none))
    (hspec : SpecContained u observed) :
    (applyObject c u stages s).out
      = Outcome.ret (some observed, NewPostStatusEntrySkipped observed, none) ∧
    (applyObject c u stages s).trace = [Event.get u.GetName] := by
  have h1 : (c.Get u.GetName s).1.1 = some observed := by rw [hget]
  have h2 : (c.Get u.GetName s).1.2 = none := by rw [hget]
  have hd := DeepDerivative_of_contained u observed hspec
  simp [applyObject, h1, h2, hd, IsNotFound]

/-- C3 at the scenario of the spec: the desired spec is `x: 1`, the store holds
the document with spec `x: 1, y: 2`; the entry is `Skipped` and no write is
made. -/
theorem applyObject_skip_witness :
    (applyObject memClient testObj []
        [mkDoc "test-obj" [("x", Value.int 1), ("y", Value.int 2)]]).out
      = Outcome.ret (some (mkDoc "test-obj" [("x", Value.int 1), ("y", Value.int 2)]),
          NewPostStatusEntrySkipped
            (mkDoc "test-obj" [("x", Value.int 1), ("y", Value.int 2)]), none) ∧
    (applyObject memClient testObj []
        [mkDoc "test-obj" [("x", Value.int 1), ("y", Value.int 2)]]).trace
      = [Event.get testObj.GetName] :=
  applyObject_skip memClient testObj []
    [mkDoc "test-obj" [("x", Value.int 1), ("y", Value.int 2)]]
    (mkDoc "test-obj" [("x", Value.int 1), ("y", Value.int 2)]) rfl
    (Or.inr ⟨"map[string]interface {}", [("x", Value.int 1)],
      [("x", Value.int 1), ("y", Value.int 2)], rfl, rfl, by
      intro k v h
      by_cases hk : "x" = k
      · simpa [mapIndex, hk] using h
      · simp [mapIndex, hk] at h⟩)

/-- C3 as worded fails when the two specs are not field maps of one type. The
desired spec is the empty map, which has no field, so that every field present
in it is present and equal in any observed spec. (a) The observed document has
no spec section: `applyObject` panics in `DeepDerivative` after the `Get` and
returns nothing. (b) The observed spec is a string: `applyObject` calls
`Update` and returns `Updated`. -/
theorem applyObject_skip_counterexample :
    ((applyObject memClient (mkDoc "test-obj" []) [] [specLessObj]).out = Outcome.panic ∧
      (applyObject memClient (mkDoc "test-obj" []) [] [specLessObj]).trace
        = [Event.get "test-obj"]) ∧
    ((applyObject memClient (mkDoc "test-obj" []) [] [stringSpecObj]).out
        = Outcome.ret (some (stagedDoc (mkDoc "test-obj" []) stringSpecObj),
            NewPostStatusEntryUpdated (stagedDoc (mkDoc "test-obj" []) stringSpecObj),
            none) ∧
      updateCalls (applyObject memClient (mkDoc "test-obj" []) [] [stringSpecObj]).trace
        = [some (stagedDoc (mkDoc "test-obj" []) stringSpecObj)]) :=
  ⟨⟨rfl, rfl⟩, ⟨rfl, rfl⟩⟩

/-- The dynamic type of a value takes part in the comparison: the desired spec
holds `x` as the `int` 1, as a document built in Go code does, and the stored
spec holds `x` as the `int64` 1, as a decoded document does; `applyObject`
calls `Update`. -/
theorem applyObject_dynamic_type_update :
    updateCalls (applyObject memClient (mkDoc "test-obj" [("x", Value.intOf "int" 1)]) []
        [mkDoc "test-obj" [("x", Value.int 1)]]).trace
      = [some (stagedDoc (mkDoc "test-obj" [("x", Value.intOf "int" 1)])
          (mkDoc "test-obj" [("x", Value.int 1)]))] :=
  rfl

theorem updateCalls_append (a b : List Event) :
    updateCalls (a ++ b) = updateCalls a ++ updateCalls b := by
  induction a with
  | nil => rfl
  | cons e a ih => cases e <;> simp [updateCalls, ih]

theorem createCalls_append (a b : List Event) :
    createCalls (a ++ b) = createCalls a ++ createCalls b := by
  induction a with
  | nil => rfl
  | cons e a ih => cases e <;> simp [createCalls, ih]

theorem updateCalls_map_update (us : List (Option Unstructured)) (stages : List String) :
    updateCalls (us.map (fun o => Event.update o stages)) = us := by
  induction us with
  | nil => rfl
  | cons o us ih => simp [updateCalls, ih]

theorem createCalls_map_update (us : List (Option Unstructured)) (stages : List String) :
    createCalls (us.map (fun o => Event.update o stages)) = [] := by
  induction us with
  | nil => rfl
  | cons o us ih => simp [createCalls, ih]

/-- The retry loop only adds `Update` calls to the trace. -/
theorem OnError_updateOnce_trace {σ : Type} (c : Client σ) (stages : List String)
    (n : Nat) :
    ∀ (last : Option Err) (x : UpdateState σ), ∃ us : List (Option Unstructured),
      (OnError IsConflict (updateOnce c stages) n last x).2.trace
        = x.trace ++ us.map (fun o => Event.update o stages) := by
  induction n with
  | zero => intro last x; exact ⟨[], by simp [OnError]⟩
  | succ n ih =>
    intro last x
    cases he : (c.Update x.response stages x.st).1.2 with
    | none => exact ⟨[x.response], by simp [OnError, updateOnce, he]⟩
    | some e =>
      by_cases hr : IsConflict e = true
      · obtain ⟨us, hus⟩ := ih (some e)
          ⟨(c.Update x.response stages x.st).1.1, (c.Update x.response stages x.st).2,
            x.trace ++ [Event.update x.response stages]⟩
        refine ⟨x.response :: us, ?_⟩
        simp only [OnError, updateOnce, he, hr, if_true]
        rw [hus]
        simp
      · exact ⟨[x.response], by simp [OnError, updateOnce, he, hr]⟩

/-- With at least one step, the retry loop starts with an `Update` call that
submits the current `response`. -/
theorem OnError_updateOnce_trace_succ {σ : Type} (c : Client σ) (stages : List String)
    (n : Nat) (last : Option Err) (x : UpdateState σ) :
    ∃ us : List (Option Unstructured),
      (OnError IsConflict (updateOnce c stages) (n + 1) last x).2.trace
        = x.trace ++ Event.update x.response stages ::
            us.map (fun o => Event.update o stages) := by
  cases he : (c.Update x.response stages x.st).1.2 with
  | none => exact ⟨[], by simp [OnError, updateOnce, he]⟩
  | some e =>
    by_cases hr : IsConflict e = true
    · obtain ⟨us, hus⟩ := OnError_updateOnce_trace c stages n (some e)
        ⟨(c.Update x.response stages x.st).1.1, (c.Update x.response stages x.st).2,
          x.trace ++ [Event.update x.response stages]⟩
      refine ⟨us, ?_⟩
      simp only [OnError, updateOnce, he, hr, if_true]
      rw [hus]
      simp
    · exact ⟨[], by simp [OnError, updateOnce, he, hr]⟩

/-- The run of the retry loop that `applyObject` makes on the update path. -/
theorem applyObject_update_run {σ : Type} (c : Client σ) (u : Unstructured)
    (stages : List String) (s : σ) (observed : Unstructured)
    (hget : (c.Get u.GetName s).1 = (some observed, none))
    (hdd : DeepDerivative (mapGet u.Object "spec") (mapGet observed.Object "spec")
      = Outcome.ret false) :
    applyObject c u stages s =
      (let r := RetryOnConflict DefaultRetrySteps (updateOnce c stages)
          ⟨some (stagedDoc u observed), (c.Get u.GetName s).2, [Event.get u.GetName]⟩
       match r.1, r.2.response with
       | _, none => ⟨Outcome.panic, r.2.st, r.2.trace⟩
       | some err, some resp =>
         ⟨Outcome.ret (some u, NewPostStatusEntryFailed resp, some err), r.2.st, r.2.trace⟩
       | none, some resp =>
         ⟨Outcome.ret (some resp, NewPostStatusEntryUpdated resp, none), r.2.st,
           r.2.trace⟩) := by
  have h1 : (c.Get u.GetName s).1.1 = some observed := by rw [hget]
  have h2 : (c.Get u.GetName s).1.2 = none := by rw [hget]
  simp [applyObject, h1, h2, hdd, IsNotFound]

theorem applyObject_update_trace {σ : Type} (c : Client σ) (u : Unstructured)
    (stages : List String) (s : σ) (observed : Unstructured)
    (hget : (c.Get u.GetName s).1 = (some observed, none))
    (hdd : DeepDerivative (mapGet u.Object "spec") (mapGet observed.Object "spec")
      = Outcome.ret false) :
    ∃ us : List (Option Unstructured),
      (applyObject c u stages s).trace
        = Event.get u.GetName :: Event.update (some (stagedDoc u observed)) stages ::
            us.map (fun o => Event.update o stages) := by
  obtain ⟨us, hus⟩ := OnError_updateOnce_trace_succ c stages 4 none
    ⟨some (stagedDoc u observed), (c.Get u.GetName s).2, [Event.get u.GetName]⟩
  refine ⟨us, ?_⟩
  rw [applyObject_update_run c u stages s observed hget hdd]
  simp only [RetryOnConflict, DefaultRetrySteps]
  split <;> simpa using hus

theorem mapIndex_mapAssign_self (m : List (String × Value)) (k : String) (v : Value) :
    mapIndex (mapAssign m k v) k = some v := by
  induction m with
  | nil => simp [mapAssign, mapIndex]
  | cons kv rest ih =>
    obtain ⟨k0, v0⟩ := kv
    by_cases h : k0 = k
    · simp [mapAssign, mapIndex, h]
    · simp [mapAssign, mapIndex, h, ih]

theorem mapIndex_mapAssign_other (m : List (String × Value)) (k k2 : String) (v : Value)
    (hk : k2 ≠ k) : mapIndex (mapAssign m k v) k2 = mapIndex m k2 := by
  induction m with
  | nil =>
    have h : ¬ k = k2 := fun e => hk e.symm
    simp [mapAssign, mapIndex, h]
  | cons kv rest ih =>
    obtain ⟨k0, v0⟩ := kv
    by_cases h : k0 = k
    · subst h
      have h2 : ¬ k0 = k2 := fun e => hk e.symm
      simp [mapAssign, mapIndex, h2]
    · by_cases h3 : k0 = k2
      · subst h3
        simp [mapAssign, mapIndex, h]
      · simp [mapAssign, mapIndex, h, h3, ih]

theorem mapGet_ne_null_of_ret_false (a1 a2 : Value)
    (h : DeepDerivative a1 a2 = Outcome.ret false) : a1 ≠ Value.null ∧ a2 ≠ Value.null := by
  cases a1 <;> cases a2 <;> simp_all [DeepDerivative]

/-- C6. Staging frame: on the update path (`Get` returns the observed
document without error and the desired spec is not a semantic derivative of
the observed one) the first `Update` call of `applyObject` submits a document
whose `spec` field is the `spec` field of the desired document and whose every
other field (metadata with its resource version, status, ...) is that of the
observed document; nothing else of the desired document is copied. -/
theorem applyObject_staging_frame {σ : Type} (c : Client σ) (u : Unstructured)
    (stages : List String) (s : σ) (observed : Unstructured)
    (hget : (c.Get u.GetName s).1 = (some observed, none))
    (hdd : DeepDerivative (mapGet u.Object "spec") (mapGet observed.Object "spec")
      = Outcome.ret false) :
    ∃ staged rest,
      (applyObject c u stages s).trace
        = Event.get u.GetName :: Event.update (some staged) stages :: rest ∧
      mapIndex staged.Object "spec" = mapIndex u.Object "spec" ∧
      ∀ k, k ≠ "spec" → mapIndex staged.Object k = mapIndex observed.Object k := by
  obtain ⟨us, hus⟩ := applyObject_update_trace c u stages s observed hget hdd
  refine ⟨stagedDoc u observed, _, hus, ?_, ?_⟩
  · have hne := (mapGet_ne_null_of_ret_false _ _ hdd).1
    simp only [stagedDoc, mapIndex_mapAssign_self]
    unfold mapGet at hne ⊢
    cases hm : mapIndex u.Object "spec" with
    | none => simp [hm] at hne
    | some v => simp
  · intro k hk
    simp only [stagedDoc]
    exact mapIndex_mapAssign_other _ _ _ _ hk

/-- C6 at the scenario of the spec: the desired spec is `x: 1`, the store holds
`test-obj` with spec `x: 0`, a resource version and a status. -/
theorem applyObject_staging_frame_witness :
    ∃ staged rest,
      (applyObject memClient testObj [] [observedObj]).trace
        = Event.get testObj.GetName :: Event.update (some staged) [] :: rest ∧
      mapIndex staged.Object "spec" = mapIndex testObj.Object "spec" ∧
      ∀ k, k ≠ "spec" → mapIndex staged.Object k = mapIndex observedObj.Object k :=
  applyObject_staging_frame memClient testObj [] [observedObj] observedObj rfl rfl

theorem applyObject_trace_of_not_ret_false {σ : Type} (c : Client σ) (u : Unstructured)
    (stages : List String) (s : σ) (observed : Unstructured)
    (hget : (c.Get u.GetName s).1 = (some observed, none))
    (hdd : DeepDerivative (mapGet u.Object "spec") (mapGet observed.Object "spec")
      ≠ Outcome.ret false) :
    (applyObject c u stages s).trace = [Event.get u.GetName] := by
  have h1 : (c.Get u.GetName s).1.1 = some observed := by rw [hget]
  have h2 : (c.Get u.GetName s).1.2 = none := by rw [hget]
  cases hd : DeepDerivative (mapGet u.Object "spec") (mapGet observed.Object "spec") with
  | panic => simp [applyObject, h1, h2, hd, IsNotFound]
  | ret b =>
    cases b with
    | true => simp [applyObject, h1, h2, hd, IsNotFound]
    | false => exact absurd hd hdd

theorem applyObject_run_panic {σ : Type} (c : Client σ) (u : Unstructured)
    (stages : List String) (s : σ) (observed : Unstructured)
    (hget : (c.Get u.GetName s).1 = (some observed, none))
    (hdd : DeepDerivative (mapGet u.Object "spec") (mapGet observed.Object "spec")
      = Outcome.panic) :
    applyObject c u stages s = ⟨Outcome.panic, (c.Get u.GetName s).2, [Event.get u.GetName]⟩ := by
  have h1 : (c.Get u.GetName s).1.1 = some observed := by rw [hget]
  have h2 : (c.Get u.GetName s).1.2 = none := by rw [hget]
  simp [applyObject, h1, h2, hdd, IsNotFound]

/-- When `Get` returns the observed document without error, `applyObject`
calls `Update` exactly when `DeepDerivative` returns false. -/
theorem applyObject_updates_iff {σ : Type} (c : Client σ) (u : Unstructured)
    (stages : List String) (s : σ) (observed : Unstructured)
    (hget : (c.Get u.GetName s).1 = (some observed, none)) :
    updateCalls (applyObject c u stages s).trace ≠ [] ↔
      DeepDerivative (mapGet u.Object "spec") (mapGet observed.Object "spec")
        = Outcome.ret false := by
  constructor
  · intro hne
    by_contra hdd
    rw [applyObject_trace_of_not_ret_false c u stages s observed hget hdd] at hne
    exact hne rfl
  · intro hdd
    obtain ⟨us, hus⟩ := applyObject_update_trace c u stages s observed hget hdd
    rw [hus]
    simp [updateCalls]

theorem deepValueDerive_setScalar_no_panic (v w : Value) (hv : v.isSetScalar = true)
    (hw : w ≠ Value.null) : deepValueDerive v w ≠ Outcome.panic := by
  cases v <;> cases w <;> simp_all [deepValueDerive, Value.isSetScalar]

theorem deriveMap_no_panic (m2 : List (String × Value)) (rest : List (String × Value)) :
    ∀ seen : List String,
    (∀ k v, k ∉ seen → mapIndex rest k = some v →
      ∃ w, mapIndex m2 k = some w ∧ deepValueDerive v w ≠ Outcome.panic) →
    deriveMap seen rest m2 ≠ Outcome.panic := by
  induction rest with
  | nil => intro seen _; simp [deriveMap]
  | cons kv rest ih =>
    obtain ⟨k0, v0⟩ := kv
    intro seen h
    have htail : deriveMap (k0 :: seen) rest m2 ≠ Outcome.panic := by
      apply ih
      intro k v hk hv
      simp only [List.mem_cons, not_or] at hk
      have hne : ¬ k0 = k := fun e => hk.1 e.symm
      exact h k v hk.2 (by simp [mapIndex, hne, hv])
    simp only [deriveMap]
    by_cases hs : k0 ∈ seen
    · simpa [hs] using htail
    · obtain ⟨w, hw, hd⟩ := h k0 v0 hs (by simp [mapIndex])
      simp only [hs, if_false, hw]
      cases hdv : deepValueDerive v0 w with
      | panic => exact absurd hdv hd
      | ret b =>
        cases b with
        | false => simp
        | true => simpa using htail

/-- C4, amended. `Get` returns the observed document without error and the
desired and the observed spec are maps, of the Go types `t1` and `t2`.
(a) If some field of the desired spec is absent from the observed spec, or
has there another value than its own, that value being one the comparison
takes by equality (a boolean, a number, a string that is not empty),
`applyObject` does not skip: it calls `Update`, or it panics in the comparison
right after the `Get`. (b) If moreover the maps have one type and every
field of the desired spec is such a value and is a field of the observed spec
with a value that is not nil, `applyObject` calls `Update`, first with the
observed document carrying the desired spec. (c) `Create` is never called.
(d) When `Update` is called and the retried `Update` ends with a nil error,
its last call returning the document `d`, the result is `d` with an `Updated`
entry and a nil error. (e) `Update` is called only if the two maps differ in
type or some field of the desired spec is absent from the observed spec or
has a different value there. -/
theorem applyObject_update_decision {σ : Type} (c : Client σ) (u : Unstructured)
    (stages : List String) (s : σ) (observed : Unstructured) (t1 t2 : String)
    (m1 m2 : List (String × Value))
    (hget : (c.Get u.GetName s).1 = (some observed, none))
    (hm1 : mapIndex u.Object "spec" = some (Value.mapOf t1 m1))
    (hm2 : mapIndex observed.Object "spec" = some (Value.mapOf t2 m2)) :
    ((∃ k v, mapIndex m1 k = some v ∧
        (mapIndex m2 k = none ∨ (v.isSetScalar = true ∧ mapIndex m2 k ≠ some v))) →
      updateCalls (applyObject c u stages s).trace ≠ [] ∨
      ((applyObject c u stages s).out = Outcome.panic ∧
        (applyObject c u stages s).trace = [Event.get u.GetName])) ∧
    (t1 = t2 →
      (∀ k v, mapIndex m1 k = some v →
        v.isSetScalar = true ∧ ∃ w, mapIndex m2 k = some w ∧ w ≠ Value.null) →
      (∃ k v, mapIndex m1 k = some v ∧ mapIndex m2 k ≠ some v) →
      ∃ rest, (applyObject c u stages s).trace
        = Event.get u.GetName :: Event.update (some (stagedDoc u observed)) stages :: rest) ∧
    createCalls (applyObject c u stages s).trace = [] ∧
    (updateCalls (applyObject c u stages s).trace ≠ [] →
      ∀ d x, RetryOnConflict DefaultRetrySteps (updateOnce c stages)
          ⟨some (stagedDoc u observed), (c.Get u.GetName s).2, [Event.get u.GetName]⟩
          = (none, x) →
        x.response = some d →
        (applyObject c u stages s).out
          = Outcome.ret (some d, NewPostStatusEntryUpdated d, none)) ∧
    (updateCalls (applyObject c u stages s).trace ≠ [] →
      t1 ≠ t2 ∨ ∃ k v, mapIndex m1 k = some v ∧ mapIndex m2 k ≠ some v) := by
  have hiff := applyObject_updates_iff c u stages s observed hget
  have hdv : DeepDerivative (mapGet u.Object "spec") (mapGet observed.Object "spec")
      = deepValueDerive (Value.mapOf t1 m1) (Value.mapOf t2 m2) := by
    rw [DeepDerivative_eq_deepValueDerive]
    simp [mapGet, hm1, hm2]
  have hnottrue : (∃ k v, mapIndex m1 k = some v ∧
        (mapIndex m2 k = none ∨ (v.isSetScalar = true ∧ mapIndex m2 k ≠ some v))) →
      deepValueDerive (Value.mapOf t1 m1) (Value.mapOf t2 m2) ≠ Outcome.ret true := by
    rintro ⟨k, v, hk, hdiff⟩ htrue
    obtain ⟨_, hf⟩ := fields_of_deepValueDerive t1 t2 m1 m2 htrue
    obtain ⟨w, hw, hwv⟩ := hf k v hk
    rcases hdiff with hnone | ⟨hs, hne⟩
    · rw [hnone] at hw; cases hw
    · exact hne (by rw [hw, hwv hs])
  refine ⟨?_, ?_, ?_, ?_, ?_⟩
  · intro hex
    cases hdd : deepValueDerive (Value.mapOf t1 m1) (Value.mapOf t2 m2) with
    | panic =>
      right
      rw [applyObject_run_panic c u stages s observed hget (hdv.trans hdd)]
      exact ⟨rfl, rfl⟩
    | ret b =>
      cases b with
      | true => exact absurd hdd (hnottrue hex)
      | false => exact Or.inl (hiff.mpr (hdv.trans hdd))
  · intro ht hflat hex
    subst ht
    have hnp : deepValueDerive (Value.mapOf t1 m1) (Value.mapOf t1 m2) ≠ Outcome.panic := by
      have hm : deriveMap [] m1 m2 ≠ Outcome.panic := by
        apply deriveMap_no_panic
        intro k v _ hk
        obtain ⟨hs, w, hw, hwn⟩ := hflat k v hk
        exact ⟨w, hw, deepValueDerive_setScalar_no_panic v w hs hwn⟩
      simp only [deepValueDerive, bne_self_eq_false, Bool.false_eq_true, if_false]
      split
      · simp
      · split
        · simp
        · exact hm
    have hex2 : ∃ k v, mapIndex m1 k = some v ∧
        (mapIndex m2 k = none ∨ (v.isSetScalar = true ∧ mapIndex m2 k ≠ some v)) := by
      obtain ⟨k, v, hk, hne⟩ := hex
      exact ⟨k, v, hk, Or.inr ⟨(hflat k v hk).1, hne⟩⟩
    have hfalse : deepValueDerive (Value.mapOf t1 m1) (Value.mapOf t1 m2)
        = Outcome.ret false := by
      cases hdd : deepValueDerive (Value.mapOf t1 m1) (Value.mapOf t1 m2) with
      | panic => exact absurd hdd hnp
      | ret b =>
        cases b with
        | true => exact absurd hdd (hnottrue hex2)
        | false => rfl
    obtain ⟨us, hus⟩ := applyObject_update_trace c u stages s observed hget
      (hdv.trans hfalse)
    exact ⟨_, hus⟩
  · by_cases hdd : DeepDerivative (mapGet u.Object "spec")
        (mapGet observed.Object "spec") = Outcome.ret false
    · obtain ⟨us, hus⟩ := applyObject_update_trace c u stages s observed hget hdd
      rw [hus]
      simp [createCalls, createCalls_map_update]
    · rw [applyObject_trace_of_not_ret_false c u stages s observed hget hdd]
      rfl
  · intro hne d x hloop hresp
    rw [applyObject_update_run c u stages s observed hget (hiff.mp hne)]
    simp [hloop, hresp]
  · intro hne
    by_contra hcon
    push_neg at hcon
    obtain ⟨ht, hall⟩ := hcon
    subst ht
    have hret := DeepDerivative_of_contained u observed
      (Or.inr ⟨t1, m1, m2, hm1, hm2, hall⟩)
    rw [hiff.mp hne] at hret
    cases hret

/-- C4, amended, at the scenario of the spec: the desired spec is `x: 1`, the
store holds spec `x: 0`; `Update` is called with the observed document
carrying the desired spec, and the entry is `Updated`. -/
theorem applyObject_update_decision_witness :
    (∃ rest, (applyObject memClient testObj [] [observedObj]).trace
      = Event.get testObj.GetName ::
          Event.update (some (stagedDoc testObj observedObj)) [] :: rest) ∧
    (applyObject memClient testObj [] [observedObj]).out
      = Outcome.ret (some (stagedDoc testObj observedObj),
          NewPostStatusEntryUpdated (stagedDoc testObj observedObj), none) :=
  ⟨(applyObject_update_decision memClient testObj [] [observedObj] observedObj
      "map[string]interface {}" "map[string]interface {}"
      [("x", Value.int 1)] [("x", Value.int 0)] rfl rfl rfl).2.1 rfl
      (by
        intro k v h
        by_cases hk : "x" = k
        · simp only [mapIndex, hk, if_true, Option.some.injEq] at h
          subst h
          exact ⟨rfl, Value.int 0, by simp [mapIndex, hk], by simp⟩
        · simp [mapIndex, hk] at h)
      ⟨"x", Value.int 1, rfl, by simp [mapIndex]⟩,
   (applyObject_update_decision memClient testObj [] [observedObj] observedObj
      "map[string]interface {}" "map[string]interface {}"
      [("x", Value.int 1)] [("x", Value.int 0)] rfl rfl rfl).2.2.2.1
      (by
        rw [show updateCalls (applyObject memClient testObj [] [observedObj]).trace
          = [some (stagedDoc testObj observedObj)] from rfl]
        simp)
      (stagedDoc testObj observedObj)
      ⟨some (stagedDoc testObj observedObj), [stagedDoc testObj observedObj, observedObj],
        [Event.get testObj.GetName, Event.update (some (stagedDoc testObj observedObj)) []]⟩
      rfl rfl⟩

/-- C4 fails as stated, in both directions. (a) The desired spec holds the
field `x` with the empty string, the observed spec holds `x` with the value
`a`, a different value; `applyObject` returns `Skipped` and calls no `Update`.
(b) The desired spec holds the field `x`, which is absent from the observed
spec `y: 2`; `applyObject` panics in the comparison and calls no `Update`.
(c) The desired spec holds the list `[1]` in `x`, the observed spec the
different list `[1, 2]`; `applyObject` returns `Skipped`. (d) The desired
spec is a `map[string]string` with the field `a: b`, the observed spec a
`map[string]interface{}` with the same field and value; `applyObject` calls
`Update` although no field of the desired spec is absent or different. -/
theorem applyObject_update_decision_counterexample :
    ((applyObject memClient (mkDoc "test-obj" [("x", Value.str "")]) []
        [mkDoc "test-obj" [("x", Value.str "a")]]).out
      = Outcome.ret (some (mkDoc "test-obj" [("x", Value.str "a")]),
          NewPostStatusEntrySkipped (mkDoc "test-obj" [("x", Value.str "a")]), none) ∧
     updateCalls (applyObject memClient (mkDoc "test-obj" [("x", Value.str "")]) []
        [mkDoc "test-obj" [("x", Value.str "a")]]).trace = []) ∧
    (mapIndex [("y", Value.int 2)] "x" = none ∧
     (applyObject memClient testObj [] [mkDoc "test-obj" [("y", Value.int 2)]]).out
      = Outcome.panic ∧
     updateCalls (applyObject memClient testObj []
        [mkDoc "test-obj" [("y", Value.int 2)]]).trace = []) ∧
    ((applyObject memClient (mkDoc "test-obj" [("x", Value.list [Value.int 1])]) []
        [mkDoc "test-obj" [("x", Value.list [Value.int 1, Value.int 2])]]).out
      = Outcome.ret (some (mkDoc "test-obj" [("x", Value.list [Value.int 1, Value.int 2])]),
          NewPostStatusEntrySkipped
            (mkDoc "test-obj" [("x", Value.list [Value.int 1, Value.int 2])]), none)) ∧
    (mapIndex [("a", Value.str "b")] "a" = some (Value.str "b") ∧
     updateCalls (applyObject memClient typedSpecObj [] [mkDoc "test-obj" [("a", Value.str "b")]]).trace
      = [some (stagedDoc typedSpecObj (mkDoc "test-obj" [("a", Value.str "b")]))]) :=
  ⟨⟨rfl, rfl⟩, ⟨rfl, rfl, rfl⟩, rfl, ⟨rfl, rfl⟩⟩

/-! ### `applyObject`: idempotence -/

theorem DeepDerivative_self (v : Value) : DeepDerivative v v = Outcome.ret true := by
  cases v <;> simp [DeepDerivative, deepValueDerive_refl]

theorem stagedDoc_GetName (u d : Unstructured) : (stagedDoc u d).GetName = d.GetName := by
  have h : mapIndex (stagedDoc u d).Object "metadata" = mapIndex d.Object "metadata" :=
    mapIndex_mapAssign_other _ _ _ _ (by decide)
  simp only [Unstructured.GetName, h]

theorem stagedDoc_spec (u d : Unstructured) :
    mapGet (stagedDoc u d).Object "spec" = mapGet u.Object "spec" := by
  simp [mapGet, stagedDoc, mapIndex_mapAssign_self]

theorem applyObject_run_skipped {σ : Type} (c : Client σ) (u : Unstructured)
    (stages : List String) (s : σ) (d : Unstructured)
    (hget : (c.Get u.GetName s).1 = (some d, none))
    (hdd : DeepDerivative (mapGet u.Object "spec") (mapGet d.Object "spec")
      = Outcome.ret true) :
    applyObject c u stages s =
      ⟨Outcome.ret (some d, NewPostStatusEntrySkipped d, none), (c.Get u.GetName s).2,
        [Event.get u.GetName]⟩ := by
  have h1 : (c.Get u.GetName s).1.1 = some d := by rw [hget]
  have h2 : (c.Get u.GetName s).1.2 = none := by rw [hget]
  simp [applyObject, h1, h2, hdd, IsNotFound]

theorem applyObject_create_run {σ : Type} (c : Client σ) (u : Unstructured)
    (stages : List String) (s : σ) (e : Err) (r : Unstructured)
    (hget : (c.Get u.GetName s).1.2 = some e) (hnf : IsNotFound (some e) = true)
    (hcr : (c.Create u stages (c.Get u.GetName s).2).1 = (some r, none)) :
    applyObject c u stages s =
      ⟨Outcome.ret (some r, NewStatusEntryCreated r, none),
        (c.Create u stages (c.Get u.GetName s).2).2,
        [Event.get u.GetName, Event.create u stages]⟩ := by
  have h1 : (c.Create u stages (c.Get u.GetName s).2).1.1 = some r := by rw [hcr]
  have h2 : (c.Create u stages (c.Get u.GetName s).2).1.2 = none := by rw [hcr]
  simp [applyObject, hget, hnf, h1, h2]

theorem applyObject_update_ok_run {σ : Type} (c : Client σ) (u : Unstructured)
    (stages : List String) (s : σ) (d r : Unstructured)
    (hget : (c.Get u.GetName s).1 = (some d, none))
    (hdd : DeepDerivative (mapGet u.Object "spec") (mapGet d.Object "spec")
      = Outcome.ret false)
    (hup : (c.Update (some (stagedDoc u d)) stages (c.Get u.GetName s).2).1
      = (some r, none)) :
    applyObject c u stages s =
      ⟨Outcome.ret (some r, NewPostStatusEntryUpdated r, none),
        (c.Update (some (stagedDoc u d)) stages (c.Get u.GetName s).2).2,
        [Event.get u.GetName, Event.update (some (stagedDoc u d)) stages]⟩ := by
  have h1 : (c.Update (some (stagedDoc u d)) stages (c.Get u.GetName s).2).1.1
      = some r := by rw [hup]
  have h2 : (c.Update (some (stagedDoc u d)) stages (c.Get u.GetName s).2).1.2
      = none := by rw [hup]
  rw [applyObject_update_run c u stages s d hget hdd]
  simp [RetryOnConflict, DefaultRetrySteps, OnError, updateOnce, h1, h2]

/-- C2, amended. Idempotence: over a store with no external interference in
which `Create` and `Update` persist the submitted document and `Get` returns
what was persisted, and on which the comparison of the desired spec with the
spec of the document stored under the desired name (if any) does not fault, a
first `applyObject` makes at most one write call, and a second `applyObject`
with the same desired document, run on the store the first one left, returns
`Skipped` with a nil error and calls neither `Create` nor `Update`. The
comparison faults when the desired spec is set and the stored document has no
spec, or lacks a key of the desired spec, or holds nil where the desired spec
holds a value. -/
theorem applyObject_idempotent {σ : Type} (c : Client σ) (hc : StoreContract c)
    (u : Unstructured) (stages : List String) (s : σ)
    (hspec : ∀ d, (c.Get u.GetName s).1.1 = some d →
      DeepDerivative (mapGet u.Object "spec") (mapGet d.Object "spec") ≠ Outcome.panic) :
    (writeCalls (applyObject c u stages s).trace).length ≤ 1 ∧
    ∃ d, (applyObject c u stages (applyObject c u stages s).st).out
        = Outcome.ret (some d, NewPostStatusEntrySkipped d, none) ∧
      writeCalls (applyObject c u stages (applyObject c u stages s).st).trace = [] := by
  rcases hc.get_res u.GetName s with ⟨d, hget, hname⟩ | ⟨e, hget, hnf⟩
  · have hd2 := hspec d (by rw [hget])
    cases hdd : DeepDerivative (mapGet u.Object "spec") (mapGet d.Object "spec") with
    | panic => exact absurd hdd hd2
    | ret b =>
      cases b with
      | true =>
        have hrun := applyObject_run_skipped c u stages s d hget hdd
        have hst : (applyObject c u stages s).st = s := by rw [hrun]; exact hc.get_st _ _
        rw [hst, hrun]
        exact ⟨by simp [writeCalls], d, rfl, rfl⟩
      | false =>
        obtain ⟨⟨r, hup⟩, hpersist⟩ :=
          hc.update_persists (stagedDoc u d) stages (c.Get u.GetName s).2
        have hrun := applyObject_update_ok_run c u stages s d r hget hdd hup
        have hget2 : (c.Get u.GetName (applyObject c u stages s).st).1
            = (some (stagedDoc u d), none) := by
          rw [hrun]
          have hn : (stagedDoc u d).GetName = u.GetName := by
            rw [stagedDoc_GetName, hname]
          rw [hn] at hpersist
          exact hpersist
        have hrun2 := applyObject_run_skipped c u stages _ (stagedDoc u d) hget2
          (by rw [stagedDoc_spec]; exact DeepDerivative_self _)
        refine ⟨by rw [hrun]; simp [writeCalls], stagedDoc u d, ?_, ?_⟩
        · rw [hrun2]
        · rw [hrun2]; rfl
  · obtain ⟨⟨r, hcr⟩, hpersist⟩ := hc.create_persists u stages (c.Get u.GetName s).2
    have hrun := applyObject_create_run c u stages s e r hget hnf hcr
    have hget2 : (c.Get u.GetName (applyObject c u stages s).st).1 = (some u, none) := by
      rw [hrun]; exact hpersist
    have hrun2 := applyObject_run_skipped c u stages _ u hget2 (DeepDerivative_self _)
    refine ⟨by rw [hrun]; simp [writeCalls], u, ?_, ?_⟩
    · rw [hrun2]
    · rw [hrun2]; rfl

theorem memClient_contract : StoreContract memClient where
  get_st := by
    intro n s
    simp only [memClient]
    split <;> rfl
  get_res := by
    intro n s
    cases h : s.find? (fun d => d.GetName == n) with
    | some d =>
      left
      have hn := List.find?_some h
      exact ⟨d, by simp [memClient, h], by simpa using hn⟩
    | none =>
      right
      exact ⟨errNotFound, by simp [memClient, h], rfl⟩
  create_persists := by
    intro u stages s
    exact ⟨⟨u, rfl⟩, by simp [memClient, List.find?]⟩
  update_persists := by
    intro d stages s
    exact ⟨⟨d, rfl⟩, by simp [memClient, List.find?]⟩

/-- C2 at the scenario of the spec: the desired spec is `x: 1` and the store
holds `test-obj` with spec `x: 0`; the first call updates, the second call is
`Skipped` and writes nothing. -/
theorem applyObject_idempotent_witness :
    (writeCalls (applyObject memClient testObj [] [observedObj]).trace).length ≤ 1 ∧
    ∃ d, (applyObject memClient testObj []
          (applyObject memClient testObj [] [observedObj]).st).out
        = Outcome.ret (some d, NewPostStatusEntrySkipped d, none) ∧
      writeCalls (applyObject memClient testObj []
          (applyObject memClient testObj [] [observedObj]).st).trace = [] :=
  applyObject_idempotent memClient memClient_contract testObj [] [observedObj]
    (by
      intro d hd
      have h : d = observedObj := by
        have h2 : (memClient.Get testObj.GetName [observedObj]).1.1 = some observedObj := rfl
        rw [h2] at hd
        exact (Option.some.inj hd).symm
      subst h
      have h3 : DeepDerivative (mapGet testObj.Object "spec")
          (mapGet observedObj.Object "spec") = Outcome.ret false := rfl
      rw [h3]
      simp)

/-- C2 as worded fails on a store that keeps the contract of the claim. (a)
The store holds `test-obj` without a spec section and the desired spec is
`x: 1`: the first `applyObject` panics in the comparison, leaving the store as
it was, and so does the second; neither returns `Skipped`. (b) The same
happens when the stored spec is `y: 2`, which lacks the key `x` of the desired
spec. -/
theorem applyObject_idempotent_counterexample :
    StoreContract memClient ∧
    ((applyObject memClient testObj [] [specLessObj]).out = Outcome.panic ∧
     (applyObject memClient testObj []
        (applyObject memClient testObj [] [specLessObj]).st).out = Outcome.panic) ∧
    ((applyObject memClient testObj [] [mkDoc "test-obj" [("y", Value.int 2)]]).out
        = Outcome.panic ∧
     (applyObject memClient testObj []
        (applyObject memClient testObj [] [mkDoc "test-obj" [("y", Value.int 2)]]).st).out
        = Outcome.panic) :=
  ⟨memClient_contract, ⟨rfl, rfl⟩, ⟨rfl, rfl⟩⟩

/-! ### `applyObject`: a failing `Update` -/

/-- C8 on the code. The desired spec is `x: 1`, the observed document has spec
`x: 0`, and `Update` fails with an error that is not a conflict. When the
failing `Update` returns no document, `applyObject` panics on `*response`
instead of returning a `Failed` entry; when it returns some other document,
the `Failed` entry carries that document and not the staged one. -/
theorem applyObject_update_failure_clobbers_response :
    (applyObject (scriptClient (updateErrorScript observedObj none errUpdate))
        testObj [] 0).out = Outcome.panic ∧
    (applyObject (scriptClient (updateErrorScript observedObj (some otherObj) errUpdate))
        testObj [] 0).out
      = Outcome.ret (some testObj, NewPostStatusEntryFailed otherObj, some errUpdate) ∧
    updateCalls (applyObject
        (scriptClient (updateErrorScript observedObj (some otherObj) errUpdate))
        testObj [] 0).trace = [some (stagedDoc testObj observedObj)] :=
  ⟨rfl, rfl, rfl⟩

/-- C7 on the code. The store rejects the first five `Update` calls with a
write conflict, returning no document; the retry budget of five attempts is
used up and `applyObject` panics on `*response` instead of returning a
`Failed` entry with the conflict error. -/
theorem applyObject_conflict_exhausted_panics :
    (applyObject (scriptClient (conflictScript observedObj 5 none testObj))
        testObj [] 0).out = Outcome.panic ∧
    (updateCalls (applyObject (scriptClient (conflictScript observedObj 5 none testObj))
        testObj [] 0).trace).length = 5 :=
  ⟨rfl, rfl⟩

/-! ### `applyObject`: the retry budget -/

theorem conflictScript_get (observed : Unstructured) (n : Nat)
    (rejected : Option Unstructured) (accepted u : Unstructured) (k : Nat) :
    ((scriptClient (conflictScript observed n rejected accepted)).Get u.GetName k).1
      = (some observed, none) := rfl

/-- Within the retry budget: against the simulated store that rejects the
first `n` `Update` calls with a write conflict and accepts the next one, with
`n` at most 4, `applyObject` on the update path returns `Updated` with the
accepted document and a nil error, after `n + 1` `Update` calls. -/
theorem applyObject_conflict_within_budget (observed u accepted : Unstructured)
    (rejected : Option Unstructured) (stages : List String) (n : Nat) (hn : n ≤ 4)
    (hdd : DeepDerivative (mapGet u.Object "spec") (mapGet observed.Object "spec")
      = Outcome.ret false) :
    (applyObject (scriptClient (conflictScript observed n rejected accepted))
        u stages 0).out
      = Outcome.ret (some accepted, NewPostStatusEntryUpdated accepted, none) ∧
    (updateCalls (applyObject (scriptClient (conflictScript observed n rejected accepted))
        u stages 0).trace).length = n + 1 := by
  rw [applyObject_update_run _ u stages 0 observed (conflictScript_get _ _ _ _ _ _) hdd]
  interval_cases n <;>
    simp [RetryOnConflict, DefaultRetrySteps, OnError, updateOnce, scriptClient,
      conflictScript, IsConflict, errConflict, updateCalls, updateCalls_append]

/-- The scenario of the spec with one conflict: the second `Update` call is
accepted. -/
theorem applyObject_conflict_within_budget_witness :
    (applyObject (scriptClient (conflictScript observedObj 1 none testObj))
        testObj [] 0).out
      = Outcome.ret (some testObj, NewPostStatusEntryUpdated testObj, none) ∧
    (updateCalls (applyObject (scriptClient (conflictScript observedObj 1 none testObj))
        testObj [] 0).trace).length = 1 + 1 :=
  applyObject_conflict_within_budget observedObj testObj testObj none [] 1 (by decide) rfl

/-- An `Update` error that is not a conflict is not retried: when the first
`Update` call fails with such an error, it is the only `Update` call. -/
theorem applyObject_non_conflict_not_retried {σ : Type} (c : Client σ) (u : Unstructured)
    (stages : List String) (s : σ) (observed : Unstructured) (e : Err)
    (hget : (c.Get u.GetName s).1 = (some observed, none))
    (hdd : DeepDerivative (mapGet u.Object "spec") (mapGet observed.Object "spec")
      = Outcome.ret false)
    (hup : (c.Update (some (stagedDoc u observed)) stages (c.Get u.GetName s).2).1.2
      = some e)
    (hne : IsConflict e = false) :
    updateCalls (applyObject c u stages s).trace = [some (stagedDoc u observed)] := by
  rw [applyObject_update_run c u stages s observed hget hdd]
  simp only [RetryOnConflict, DefaultRetrySteps, OnError, updateOnce, hup, hne]
  split <;> simp [updateCalls]

/-- The store of the test style, failing every `Update` with a plain error:
one `Update` call is made. -/
theorem applyObject_non_conflict_not_retried_witness :
    updateCalls (applyObject
        (scriptClient (updateErrorScript observedObj (some otherObj) errUpdate))
        testObj [] 0).trace = [some (stagedDoc testObj observedObj)] :=
  applyObject_non_conflict_not_retried
    (scriptClient (updateErrorScript observedObj (some otherObj) errUpdate))
    testObj [] 0 observedObj errUpdate rfl rfl rfl rfl

theorem OnError_all_rejected (observed accepted : Unstructured) (n : Nat)
    (rejected : Option Unstructured) (stages : List String) (steps : Nat) :
    ∀ (k : Nat) (last : Option Err) (resp : Option Unstructured) (tr : List Event),
      k + (steps + 1) ≤ n →
      (OnError IsConflict
          (updateOnce (scriptClient (conflictScript observed n rejected accepted)) stages)
          (steps + 1) last ⟨resp, k, tr⟩).1 = some errConflict ∧
      (OnError IsConflict
          (updateOnce (scriptClient (conflictScript observed n rejected accepted)) stages)
          (steps + 1) last ⟨resp, k, tr⟩).2.response = rejected ∧
      (updateCalls (OnError IsConflict
          (updateOnce (scriptClient (conflictScript observed n rejected accepted)) stages)
          (steps + 1) last ⟨resp, k, tr⟩).2.trace).length
        = (updateCalls tr).length + (steps + 1) := by
  induction steps with
  | zero =>
    intro k last resp tr hk
    have hlt : k < n := by omega
    simp [OnError, updateOnce, scriptClient, conflictScript, hlt, IsConflict, errConflict,
      updateCalls_append, updateCalls]
  | succ steps ih =>
    intro k last resp tr hk
    have hlt : k < n := by omega
    have h := ih (k + 1) (some errConflict) rejected (tr ++ [Event.update resp stages])
      (by omega)
    have hstep : OnError IsConflict
          (updateOnce (scriptClient (conflictScript observed n rejected accepted)) stages)
          (steps + 1 + 1) last ⟨resp, k, tr⟩
        = OnError IsConflict
          (updateOnce (scriptClient (conflictScript observed n rejected accepted)) stages)
          (steps + 1) (some errConflict)
          ⟨rejected, k + 1, tr ++ [Event.update resp stages]⟩ := by
      rw [OnError]
      simp [updateOnce, scriptClient, conflictScript, hlt, IsConflict, errConflict]
    rw [hstep]
    refine ⟨h.1, h.2.1, ?_⟩
    rw [h.2.2]
    simp [updateCalls_append, updateCalls]
    omega

/-- Beyond the retry budget: against the simulated store that rejects at least
the first five `Update` calls with a write conflict, `applyObject` on the
update path makes five `Update` calls; it then returns a `Failed` entry with
the conflict error if the rejected calls returned a document, which is the
document the entry carries, and it panics if they returned none. -/
theorem applyObject_conflict_beyond_budget (observed u accepted : Unstructured)
    (rejected : Option Unstructured) (stages : List String) (n : Nat) (hn : 5 ≤ n)
    (hdd : DeepDerivative (mapGet u.Object "spec") (mapGet observed.Object "spec")
      = Outcome.ret false) :
    (updateCalls (applyObject (scriptClient (conflictScript observed n rejected accepted))
        u stages 0).trace).length = 5 ∧
    (rejected = none →
      (applyObject (scriptClient (conflictScript observed n rejected accepted))
        u stages 0).out = Outcome.panic) ∧
    (∀ r, rejected = some r →
      (applyObject (scriptClient (conflictScript observed n rejected accepted))
        u stages 0).out
        = Outcome.ret (some u, NewPostStatusEntryFailed r, some errConflict)) := by
  obtain ⟨h1, h2, h3⟩ := OnError_all_rejected observed accepted n rejected stages 4 0 none
    (some (stagedDoc u observed)) [Event.get u.GetName] (by omega)
  rw [applyObject_update_run _ u stages 0 observed (conflictScript_get _ _ _ _ _ _) hdd]
  simp only [RetryOnConflict, DefaultRetrySteps]
  have hget0 : ((scriptClient (conflictScript observed n rejected accepted)).Get
      u.GetName 0).2 = 0 := rfl
  rw [hget0]
  refine ⟨?_, ?_, ?_⟩
  · split <;> simpa [updateCalls] using h3
  · intro hr
    rw [hr] at h2
    simp only [hr] at *
    split <;> simp_all
  · intro r hr
    rw [hr] at h1 h2
    simp only [hr] at *
    split <;> simp_all

/-- Six conflicts with a document returned by each rejected call. -/
theorem applyObject_conflict_beyond_budget_witness :
    (updateCalls (applyObject
        (scriptClient (conflictScript observedObj 6 (some otherObj) testObj))
        testObj [] 0).trace).length = 5 ∧
    (applyObject (scriptClient (conflictScript observedObj 6 (some otherObj) testObj))
        testObj [] 0).out
      = Outcome.ret (some testObj, NewPostStatusEntryFailed otherObj, some errConflict) :=
  ⟨(applyObject_conflict_beyond_budget observedObj testObj testObj (some otherObj) [] 6
      (by decide) rfl).1,
   (applyObject_conflict_beyond_budget observedObj testObj testObj (some otherObj) [] 6
      (by decide) rfl).2.2 otherObj rfl⟩

/-! ### `wipeRemoved`: list failure; `deleteObject` -/

/-- C18. List failure aborts garbage collection: when the owner-label `List`
call fails with an error, `wipeRemoved` returns that error and the `List` call
is the only event of the run: no `Delete` call is issued and no callback is
fired, whatever the desired set and the callbacks are. -/
theorem wipeRemoved_list_failure {σ : Type} (message : String) (i : Client σ)
    (u : List Unstructured) (ownerID : String) (opts : Options σ) (s : σ) (e : Err)
    (hlist : (i.List (ownerSelector message ownerID) s).1.2 = some e) :
    (wipeRemoved message i u ownerID opts s).out = Outcome.ret (some e) ∧
    (wipeRemoved message i u ownerID opts s).trace
      = [Event.list (ownerSelector message ownerID)] := by
  simp [wipeRemoved, hlist]

/-- C18 at the input of the test `list error`: `List` returns nil and an
error; callbacks are configured and none is fired. -/
theorem wipeRemoved_list_failure_witness :
    (wipeRemoved "owner" (sweepClient [] (some errList) [] errDelete) [testObj] "P"
        (okOptions _) 0).out = Outcome.ret (some errList) ∧
    (wipeRemoved "owner" (sweepClient [] (some errList) [] errDelete) [testObj] "P"
        (okOptions _) 0).trace = [Event.list (ownerSelector "owner" "P")] :=
  wipeRemoved_list_failure "owner" (sweepClient [] (some errList) [] errDelete) [testObj]
    "P" (okOptions _) 0 errList rfl

/-- C19. The function `deleteObject` deletes exactly what it is told: its only
store call is one `Delete`, for the name of `u`, with the propagation mode and
the dry-run markers of the options (no `Get`, no `List`, no filtering); it
returns the `Deleted` entry carrying `u` and a nil error when that call
succeeds, and the `Failed` entry carrying `u` and the error of the store when
it fails. -/
theorem deleteObject_exact {σ : Type} (i : Client σ) (u : Unstructured)
    (ops : Operator.DeleteOptions σ) (s : σ) :
    (deleteObject i u ops s).trace
      = [Event.delete u.GetName
          { DryRun := ops.DryRun, PropagationPolicy := ops.DeletionPropagation }] ∧
    ((i.Delete u.GetName
        { DryRun := ops.DryRun, PropagationPolicy := ops.DeletionPropagation } s).1 = none →
      (deleteObject i u ops s).val = (NewPostStatusEntryDeleted u, none)) ∧
    (∀ e, (i.Delete u.GetName
        { DryRun := ops.DryRun, PropagationPolicy := ops.DeletionPropagation } s).1 = some e →
      (deleteObject i u ops s).val = (NewPostStatusEntryFailed u, some e)) := by
  refine ⟨?_, ?_, ?_⟩
  · simp only [deleteObject]
    split <;> rfl
  · intro h
    simp [deleteObject, h]
  · intro e h
    simp [deleteObject, h]

/-- C19 at the inputs of the tests `error delete` and `delete`: orphan
propagation, a failing and a succeeding `Delete`. -/
theorem deleteObject_exact_witness :
    (deleteObject (sweepClient [] none ["test-obj"] errDelete) testObj
        (orphanOptions _) 0).trace
      = [Event.delete "test-obj" ⟨[], DeletionPropagation.Orphan⟩] ∧
    (deleteObject (sweepClient [] none ["test-obj"] errDelete) testObj
        (orphanOptions _) 0).val = (NewPostStatusEntryFailed testObj, some errDelete) ∧
    (deleteObject (sweepClient [] none [] errDelete) testObj
        (orphanOptions _) 0).val = (NewPostStatusEntryDeleted testObj, none) :=
  ⟨(deleteObject_exact (sweepClient [] none ["test-obj"] errDelete) testObj
      (orphanOptions _) 0).1,
   (deleteObject_exact (sweepClient [] none ["test-obj"] errDelete) testObj
      (orphanOptions _) 0).2.2 errDelete rfl,
   (deleteObject_exact (sweepClient [] none [] errDelete) testObj
      (orphanOptions _) 0).2.1 rfl⟩

/-! ### `fireCallbacks` -/

theorem fireCallbacks_append_of_ok {σ : Type} (v : CallbackArg) (err : Option Err)
    (pre rest : List (Callback σ)) (s : σ)
    (hpre : ∀ cb ∈ pre, ∀ st, (cb v err st).1 = CallbackResult.returns none) :
    fireCallbacks v err (pre ++ rest) s =
      ⟨(fireCallbacks v err rest (afterCallbacks v err pre s)).val,
       (fireCallbacks v err rest (afterCallbacks v err pre s)).st,
       List.replicate pre.length (Event.callback v err)
         ++ (fireCallbacks v err rest (afterCallbacks v err pre s)).trace⟩ := by
  induction pre generalizing s with
  | nil => rfl
  | cons cb pre ih =>
    have h1 := hpre cb (List.mem_cons_self _ _) s
    have h2 := ih (cb v err s).2 (fun c hc st => hpre c (List.mem_cons_of_mem _ hc) st)
    have h3 : fireCallbacks v err (cb :: (pre ++ rest)) s =
        ⟨(fireCallbacks v err (pre ++ rest) (cb v err s).2).val,
         (fireCallbacks v err (pre ++ rest) (cb v err s).2).st,
         Event.callback v err :: (fireCallbacks v err (pre ++ rest) (cb v err s).2).trace⟩ := by
      simp only [fireCallbacks, h1]
    rw [List.cons_append, h3, h2]
    simp [afterCallbacks, List.replicate_succ]

/-- C14. The function `fireCallbacks` is an observer chain: when every
callback of the list returns nil without faulting on `(v, err)`, each callback
is invoked exactly once, in list order, with `(v, err)` (the trace holds one
invocation with `(v, err)` per callback and the store is the one obtained by
running the callbacks one after the other), and `err` is returned unchanged,
nil or not; with an empty list `err` is returned. -/
theorem fireCallbacks_observer_chain {σ : Type} (v : CallbackArg) (err : Option Err)
    (cbs : List (Callback σ)) (s : σ)
    (hok : ∀ cb ∈ cbs, ∀ st, (cb v err st).1 = CallbackResult.returns none) :
    (fireCallbacks v err cbs s).val = err ∧
    (fireCallbacks v err cbs s).trace
      = List.replicate cbs.length (Event.callback v err) ∧
    (fireCallbacks v err cbs s).st = afterCallbacks v err cbs s ∧
    (fireCallbacks v err ([] : List (Callback σ)) s).val = err := by
  have h := fireCallbacks_append_of_ok v err cbs [] s hok
  rw [List.append_nil] at h
  rw [h]
  simp [fireCallbacks]

/-- C14 with three logging callbacks and a non-nil error: the log shows the
order 1, 2, 3 and the error is returned unchanged. -/
theorem fireCallbacks_observer_chain_witness :
    (fireCallbacks (CallbackArg.obj testObj) (some errDelete)
        [logCallback 1 (CallbackResult.returns none),
         logCallback 2 (CallbackResult.returns none),
         logCallback 3 (CallbackResult.returns none)] []).val = some errDelete ∧
    (fireCallbacks (CallbackArg.obj testObj) (some errDelete)
        [logCallback 1 (CallbackResult.returns none),
         logCallback 2 (CallbackResult.returns none),
         logCallback 3 (CallbackResult.returns none)] []).st = [1, 2, 3] :=
  ⟨(fireCallbacks_observer_chain (CallbackArg.obj testObj) (some errDelete)
      [logCallback 1 (CallbackResult.returns none),
       logCallback 2 (CallbackResult.returns none),
       logCallback 3 (CallbackResult.returns none)] []
      (fun cb h st => by
        simp only [List.mem_cons, List.mem_singleton, List.not_mem_nil, or_false] at h
        rcases h with h | h | h <;> subst h <;> rfl)).1,
   (fireCallbacks_observer_chain (CallbackArg.obj testObj) (some errDelete)
      [logCallback 1 (CallbackResult.returns none),
       logCallback 2 (CallbackResult.returns none),
       logCallback 3 (CallbackResult.returns none)] []
      (fun cb h st => by
        simp only [List.mem_cons, List.mem_singleton, List.not_mem_nil, or_false] at h
        rcases h with h | h | h <;> subst h <;> rfl)).2.2.1⟩

/-- C15. The function `fireCallbacks` stops at the first failing callback:
when the callbacks before `cb` return nil and `cb` returns the non-nil error
`e`, the result is exactly `e`, whatever `err` was passed in; the callbacks
before `cb` and `cb` itself have each been invoked once (one invocation each
in the trace, and the store is the one `cb` left after the callbacks before it
ran in order), and no callback after `cb` is invoked. -/
theorem fireCallbacks_first_error {σ : Type} (v : CallbackArg) (err : Option Err)
    (pre post : List (Callback σ)) (cb : Callback σ) (s : σ) (e : Err)
    (hpre : ∀ c ∈ pre, ∀ st, (c v err st).1 = CallbackResult.returns none)
    (hcb : (cb v err (afterCallbacks v err pre s)).1 = CallbackResult.returns (some e)) :
    (fireCallbacks v err (pre ++ cb :: post) s).val = some e ∧
    (fireCallbacks v err (pre ++ cb :: post) s).trace
      = List.replicate (pre.length + 1) (Event.callback v err) ∧
    (fireCallbacks v err (pre ++ cb :: post) s).st
      = (cb v err (afterCallbacks v err pre s)).2 := by
  rw [fireCallbacks_append_of_ok v err pre (cb :: post) s hpre]
  simp [fireCallbacks, hcb, List.replicate_succ']

/-- C15 with three logging callbacks of which the second returns the error of
the test `callback error`: the log shows 1, 2 and not 3. -/
theorem fireCallbacks_first_error_witness :
    (fireCallbacks (CallbackArg.obj testObj) none
        ([logCallback 1 (CallbackResult.returns none)]
          ++ logCallback 2 (CallbackResult.returns (some errTest))
          :: [logCallback 3 (CallbackResult.returns none)]) []).val = some errTest ∧
    (fireCallbacks (CallbackArg.obj testObj) none
        ([logCallback 1 (CallbackResult.returns none)]
          ++ logCallback 2 (CallbackResult.returns (some errTest))
          :: [logCallback 3 (CallbackResult.returns none)]) []).st = [1, 2] :=
  ⟨(fireCallbacks_first_error (CallbackArg.obj testObj) none
      [logCallback 1 (CallbackResult.returns none)]
      [logCallback 3 (CallbackResult.returns none)]
      (logCallback 2 (CallbackResult.returns (some errTest))) [] errTest
      (fun c h st => by
        simp only [List.mem_singleton] at h
        subst h; rfl) rfl).1,
   (fireCallbacks_first_error (CallbackArg.obj testObj) none
      [logCallback 1 (CallbackResult.returns none)]
      [logCallback 3 (CallbackResult.returns none)]
      (logCallback 2 (CallbackResult.returns (some errTest))) [] errTest
      (fun c h st => by
        simp only [List.mem_singleton] at h
        subst h; rfl) rfl).2.2⟩

/-- C16. Callback fault isolation: when the callbacks before `cb` return nil
and `cb` panics with the value `p`, `fireCallbacks` returns normally; its
result is the non-nil error whose message is the rendering of `p`; `cb` and
the callbacks before it have each been invoked once, and no callback after
`cb` is invoked. -/
theorem fireCallbacks_fault_isolation {σ : Type} (v : CallbackArg) (err : Option Err)
    (pre post : List (Callback σ)) (cb : Callback σ) (s : σ) (p : String)
    (hpre : ∀ c ∈ pre, ∀ st, (c v err st).1 = CallbackResult.returns none)
    (hcb : (cb v err (afterCallbacks v err pre s)).1 = CallbackResult.panics p) :
    (fireCallbacks v err (pre ++ cb :: post) s).val = some ⟨StatusReason.Unknown, p⟩ ∧
    (fireCallbacks v err (pre ++ cb :: post) s).trace
      = List.replicate (pre.length + 1) (Event.callback v err) ∧
    (fireCallbacks v err (pre ++ cb :: post) s).st
      = (cb v err (afterCallbacks v err pre s)).2 := by
  rw [fireCallbacks_append_of_ok v err pre (cb :: post) s hpre]
  simp [fireCallbacks, hcb, List.replicate_succ']

/-- C16 with the panic of the test `callbacks error` in the second of three
logging callbacks: the log shows 1, 2 and not 3. -/
theorem fireCallbacks_fault_isolation_witness :
    (fireCallbacks (CallbackArg.obj testObj) none
        ([logCallback 1 (CallbackResult.returns none)]
          ++ logCallback 2 (CallbackResult.panics "it is fine")
          :: [logCallback 3 (CallbackResult.returns none)]) []).val
      = some ⟨StatusReason.Unknown, "it is fine"⟩ ∧
    (fireCallbacks (CallbackArg.obj testObj) none
        ([logCallback 1 (CallbackResult.returns none)]
          ++ logCallback 2 (CallbackResult.panics "it is fine")
          :: [logCallback 3 (CallbackResult.returns none)]) []).st = [1, 2] :=
  ⟨(fireCallbacks_fault_isolation (CallbackArg.obj testObj) none
      [logCallback 1 (CallbackResult.returns none)]
      [logCallback 3 (CallbackResult.returns none)]
      (logCallback 2 (CallbackResult.panics "it is fine")) [] "it is fine"
      (fun c h st => by
        simp only [List.mem_singleton] at h
        subst h; rfl) rfl).1,
   (fireCallbacks_fault_isolation (CallbackArg.obj testObj) none
      [logCallback 1 (CallbackResult.returns none)]
      [logCallback 3 (CallbackResult.returns none)]
      (logCallback 2 (CallbackResult.panics "it is fine")) [] "it is fine"
      (fun c h st => by
        simp only [List.mem_singleton] at h
        subst h; rfl) rfl).2.2⟩

/-! ### `wipeRemoved`: failures during the sweep -/

theorem fireCallbacks_val_eq {σ : Type} (v : CallbackArg) (err : Option Err)
    (cbs : List (Callback σ)) (s : σ) :
    (fireCallbacks v err cbs s).val =
      match firstCallbackError v err cbs s with
      | some e => some e
      | none => err := by
  induction cbs generalizing s with
  | nil => rfl
  | cons cb cbs ih =>
    simp only [fireCallbacks, firstCallbackError]
    cases h : (cb v err s).1 with
    | panics p => rfl
    | returns r =>
      cases r with
      | some e => rfl
      | none => exact ih _

theorem fireCallbacks_val_of_some {σ : Type} (v : CallbackArg) (e : Err)
    (cbs : List (Callback σ)) (s : σ) :
    ∃ e2, (fireCallbacks v (some e) cbs s).val = some e2 := by
  rw [fireCallbacks_val_eq]
  cases firstCallbackError v (some e) cbs s with
  | some e2 => exact ⟨e2, rfl⟩
  | none => exact ⟨e, rfl⟩

theorem wipeItems_cons_of_none {σ : Type} (i : Client σ) (u : List Unstructured)
    (opts : Options σ) (item : Unstructured) (rest : List Unstructured) (s : σ)
    (hb : (wipeItem i u opts item s).val = none) :
    wipeItems i u opts (item :: rest) s =
      ⟨(wipeItems i u opts rest (wipeItem i u opts item s).st).val,
       (wipeItems i u opts rest (wipeItem i u opts item s).st).st,
       (wipeItem i u opts item s).trace
         ++ (wipeItems i u opts rest (wipeItem i u opts item s).st).trace⟩ := by
  simp only [wipeItems, hb]

theorem wipeItems_append {σ : Type} (i : Client σ) (u : List Unstructured)
    (opts : Options σ) (pre rest : List Unstructured) (s : σ)
    (hpre : (wipeItems i u opts pre s).val = none) :
    wipeItems i u opts (pre ++ rest) s =
      ⟨(wipeItems i u opts rest (wipeItems i u opts pre s).st).val,
       (wipeItems i u opts rest (wipeItems i u opts pre s).st).st,
       (wipeItems i u opts pre s).trace
         ++ (wipeItems i u opts rest (wipeItems i u opts pre s).st).trace⟩ := by
  induction pre generalizing s with
  | nil => simp [wipeItems]
  | cons item pre ih =>
    cases hb : (wipeItem i u opts item s).val with
    | some e => simp [wipeItems, hb] at hpre
    | none =>
      rw [wipeItems_cons_of_none i u opts item pre s hb] at hpre
      have h := ih (wipeItem i u opts item s).st hpre
      rw [List.cons_append, wipeItems_cons_of_none i u opts item (pre ++ rest) s hb, h,
        wipeItems_cons_of_none i u opts item pre s hb]
      simp only [List.append_assoc]

theorem wipeItems_cons_of_some {σ : Type} (i : Client σ) (u : List Unstructured)
    (opts : Options σ) (item : Unstructured) (post : List Unstructured) (s : σ) (e : Err)
    (hb : (wipeItem i u opts item s).val = some e) :
    wipeItems i u opts (item :: post) s =
      ⟨some e, (wipeItem i u opts item s).st, (wipeItem i u opts item s).trace⟩ := by
  simp [wipeItems, hb]

/-- The run of `wipeRemoved` when the loop stops at `item` with the error `e`
after the items of `pre` went through. -/
theorem wipeRemoved_stops_at {σ : Type} (message : String) (i : Client σ)
    (u : List Unstructured) (ownerID : String) (opts : Options σ) (s : σ)
    (pre post : List Unstructured) (item : Unstructured) (e : Err)
    (hlist : (i.List (ownerSelector message ownerID) s).1 = (some (pre ++ item :: post), none))
    (hpre : (wipeItems i u opts pre (i.List (ownerSelector message ownerID) s).2).val = none)
    (hb : (wipeItem i u opts item
      (wipeItems i u opts pre (i.List (ownerSelector message ownerID) s).2).st).val = some e) :
    (wipeRemoved message i u ownerID opts s).out = Outcome.ret (some e) ∧
    (wipeRemoved message i u ownerID opts s).trace =
      Event.list (ownerSelector message ownerID) ::
        ((wipeItems i u opts pre (i.List (ownerSelector message ownerID) s).2).trace ++
         (wipeItem i u opts item
           (wipeItems i u opts pre (i.List (ownerSelector message ownerID) s).2).st).trace) := by
  have hl1 : (i.List (ownerSelector message ownerID) s).1.1 = some (pre ++ item :: post) := by
    rw [hlist]
  have hl2 : (i.List (ownerSelector message ownerID) s).1.2 = none := by rw [hlist]
  simp only [wipeRemoved, hl1, hl2]
  rw [wipeItems_append i u opts pre (item :: post) _ hpre,
    wipeItems_cons_of_some i u opts item post _ e hb]
  exact ⟨rfl, rfl⟩

theorem wipeItem_of_pre_error {σ : Type} (i : Client σ) (u : List Unstructured)
    (opts : Options σ) (item : Unstructured) (s : σ) (e : Err)
    (hc : contains u item.GetName = false)
    (hpre : (fireCallbacks (CallbackArg.obj item) none opts.Pre (s, item)).val = some e) :
    wipeItem i u opts item s =
      ⟨some e, (fireCallbacks (CallbackArg.obj item) none opts.Pre (s, item)).st.1,
        (fireCallbacks (CallbackArg.obj item) none opts.Pre (s, item)).trace⟩ := by
  simp [wipeItem, hc, hpre]

theorem wipeItem_of_delete_error {σ : Type} (i : Client σ) (u : List Unstructured)
    (opts : Options σ) (item item1 : Unstructured) (s s2 s3 : σ) (tr2 : List Event)
    (derr e : Err)
    (hc : contains u item.GetName = false)
    (hpre : fireCallbacks (CallbackArg.obj item) none opts.Pre (s, item)
      = ⟨none, (s2, item1), tr2⟩)
    (hdel : i.Delete item1.GetName (wipeDeleteOptions opts) s2 = (some derr, s3))
    (hpost : (fireCallbacks (CallbackArg.entry (NewPostStatusEntryFailed item1)) (some derr)
      opts.Post (s3, item1)).val = some e) :
    wipeItem i u opts item s =
      ⟨some e,
        (fireCallbacks (CallbackArg.entry (NewPostStatusEntryFailed item1)) (some derr)
          opts.Post (s3, item1)).st.1,
        tr2 ++ Event.delete item1.GetName (wipeDeleteOptions opts) ::
          (fireCallbacks (CallbackArg.entry (NewPostStatusEntryFailed item1)) (some derr)
            opts.Post (s3, item1)).trace⟩ := by
  simp [wipeItem, hc, hpre, hdel, hpost]

theorem wipeItem_of_delete_ok {σ : Type} (i : Client σ) (u : List Unstructured)
    (opts : Options σ) (item item1 : Unstructured) (s s2 s3 : σ) (tr2 : List Event)
    (hc : contains u item.GetName = false)
    (hpre : fireCallbacks (CallbackArg.obj item) none opts.Pre (s, item)
      = ⟨none, (s2, item1), tr2⟩)
    (hdel : i.Delete item1.GetName (wipeDeleteOptions opts) s2 = (none, s3)) :
    wipeItem i u opts item s =
      ⟨(fireCallbacks (CallbackArg.entry (NewPostStatusEntryDeleted item1)) none
          opts.Post (s3, item1)).val,
        (fireCallbacks (CallbackArg.entry (NewPostStatusEntryDeleted item1)) none
          opts.Post (s3, item1)).st.1,
        tr2 ++ Event.delete item1.GetName (wipeDeleteOptions opts) ::
          (fireCallbacks (CallbackArg.entry (NewPostStatusEntryDeleted item1)) none
            opts.Post (s3, item1)).trace⟩ := by
  simp [wipeItem, hc, hpre, hdel]

theorem fireCallbacks_val_of_first_error {σ : Type} (v : CallbackArg) (err : Option Err)
    (cbs : List (Callback σ)) (s : σ) (e : Err)
    (h : firstCallbackError v err cbs s = some e) :
    (fireCallbacks v err cbs s).val = some e := by
  rw [fireCallbacks_val_eq, h]

/-- C17. A callback failure aborts the sweep. The `List` call returned
`pre ++ item :: post`, the items of `pre` went through without a return, and
`item` is a candidate. (a) If a `Pre` callback fails on `item` (returns an
error or panics), `wipeRemoved` returns the error of that callback and no
`Delete` is issued for `item` or for any later item. (b) If the `Pre`
callbacks pass, leaving `item1` in the loop variable (`item` itself when they
do not write through the pointer), and a `Post` callback fails on the `Failed`
entry (after a failed `Delete`) or on the `Deleted` entry (after a successful
one), `wipeRemoved` returns the error of that callback and the `Delete` issued
in this pass is the last `Delete` call. -/
theorem wipeRemoved_callback_failure_aborts {σ : Type} (message : String) (i : Client σ)
    (u : List Unstructured) (ownerID : String) (opts : Options σ) (s s0 s1 : σ)
    (pre post : List Unstructured) (item : Unstructured) (tr1 : List Event)
    (hlist : i.List (ownerSelector message ownerID) s
      = ((some (pre ++ item :: post), none), s0))
    (hpre : wipeItems i u opts pre s0 = ⟨none, s1, tr1⟩)
    (hcand : contains u item.GetName = false) :
    (∀ e, firstCallbackError (CallbackArg.obj item) none opts.Pre (s1, item) = some e →
      (wipeRemoved message i u ownerID opts s).out = Outcome.ret (some e) ∧
      deleteCalls (wipeRemoved message i u ownerID opts s).trace = deleteCalls tr1) ∧
    (∀ s2 item1 tr2,
      fireCallbacks (CallbackArg.obj item) none opts.Pre (s1, item)
        = ⟨none, (s2, item1), tr2⟩ →
      (∀ derr s3 e, i.Delete item1.GetName (wipeDeleteOptions opts) s2 = (some derr, s3) →
        firstCallbackError (CallbackArg.entry (NewPostStatusEntryFailed item1)) (some derr)
          opts.Post (s3, item1) = some e →
        (wipeRemoved message i u ownerID opts s).out = Outcome.ret (some e) ∧
        deleteCalls (wipeRemoved message i u ownerID opts s).trace
          = deleteCalls tr1 ++ [(item1.GetName, wipeDeleteOptions opts)]) ∧
      (∀ s3 e, i.Delete item1.GetName (wipeDeleteOptions opts) s2 = (none, s3) →
        firstCallbackError (CallbackArg.entry (NewPostStatusEntryDeleted item1)) none
          opts.Post (s3, item1) = some e →
        (wipeRemoved message i u ownerID opts s).out = Outcome.ret (some e) ∧
        deleteCalls (wipeRemoved message i u ownerID opts s).trace
          = deleteCalls tr1 ++ [(item1.GetName, wipeDeleteOptions opts)])) := by
  have hl : (i.List (ownerSelector message ownerID) s).1
      = (some (pre ++ item :: post), none) := by rw [hlist]
  have hs0 : (i.List (ownerSelector message ownerID) s).2 = s0 := by rw [hlist]
  have hp1 : (wipeItems i u opts pre (i.List (ownerSelector message ownerID) s).2).val
      = none := by rw [hs0, hpre]
  have hp2 : (wipeItems i u opts pre (i.List (ownerSelector message ownerID) s).2).st
      = s1 := by rw [hs0, hpre]
  have hp3 : (wipeItems i u opts pre (i.List (ownerSelector message ownerID) s).2).trace
      = tr1 := by rw [hs0, hpre]
  refine ⟨?_, ?_⟩
  · intro e he
    have hb := wipeItem_of_pre_error i u opts item s1 e hcand
      (fireCallbacks_val_of_first_error _ _ _ _ _ he)
    obtain ⟨ho, ht⟩ := wipeRemoved_stops_at message i u ownerID opts s pre post item e hl hp1
      (by rw [hp2, hb])
    refine ⟨ho, ?_⟩
    rw [ht, hp2, hp3, hb]
    simp [deleteCalls, deleteCalls_append, deleteCalls_fireCallbacks]
  · intro s2 item1 tr2 hpre2
    have htr2 : deleteCalls tr2 = [] := by
      have h := deleteCalls_fireCallbacks (CallbackArg.obj item) none opts.Pre (s1, item)
      rw [hpre2] at h
      exact h
    refine ⟨?_, ?_⟩
    · intro derr s3 e hdel he
      have hb := wipeItem_of_delete_error i u opts item item1 s1 s2 s3 tr2 derr e hcand
        hpre2 hdel (fireCallbacks_val_of_first_error _ _ _ _ _ he)
      obtain ⟨ho, ht⟩ := wipeRemoved_stops_at message i u ownerID opts s pre post item e hl
        hp1 (by rw [hp2, hb])
      refine ⟨ho, ?_⟩
      rw [ht, hp2, hp3, hb]
      simp [deleteCalls, deleteCalls_append, deleteCalls_fireCallbacks, htr2]
    · intro s3 e hdel he
      have hb := wipeItem_of_delete_ok i u opts item item1 s1 s2 s3 tr2 hcand hpre2 hdel
      have hv := fireCallbacks_val_of_first_error _ _ _ _ _ he
      rw [hv] at hb
      obtain ⟨ho, ht⟩ := wipeRemoved_stops_at message i u ownerID opts s pre post item e hl
        hp1 (by rw [hp2, hb])
      refine ⟨ho, ?_⟩
      rw [ht, hp2, hp3, hb]
      simp [deleteCalls, deleteCalls_append, deleteCalls_fireCallbacks, htr2]

/-- C17 at the input of the test `callbacks error`, with a second candidate
listed: a panicking `Post` callback after the successful `Delete` of
`test-obj2` ends the sweep before `test-obj3`; and a failing `Pre` callback
prevents the `Delete` of `test-obj2` itself. -/
theorem wipeRemoved_callback_failure_aborts_witness :
    ((wipeRemoved "owner" (sweepClient [testObj2, testObj3] none [] errDelete) [testObj]
        "P" (panicPostOptions _) 0).out = Outcome.ret (some errPanic) ∧
      deleteCalls (wipeRemoved "owner" (sweepClient [testObj2, testObj3] none [] errDelete)
        [testObj] "P" (panicPostOptions _) 0).trace
        = deleteCalls [] ++ [(testObj2.GetName, wipeDeleteOptions (panicPostOptions Nat))]) ∧
    ((wipeRemoved "owner" (sweepClient [testObj2, testObj3] none [] errDelete) [testObj]
        "P" (errPreOptions _) 0).out = Outcome.ret (some errTest) ∧
      deleteCalls (wipeRemoved "owner" (sweepClient [testObj2, testObj3] none [] errDelete)
        [testObj] "P" (errPreOptions _) 0).trace = deleteCalls []) :=
  ⟨((wipeRemoved_callback_failure_aborts "owner"
      (sweepClient [testObj2, testObj3] none [] errDelete) [testObj] "P"
      (panicPostOptions _) 0 0 0 [] [testObj3] testObj2 [] rfl rfl rfl).2 0 testObj2 []
      rfl).2 1 errPanic rfl rfl,
   (wipeRemoved_callback_failure_aborts "owner"
      (sweepClient [testObj2, testObj3] none [] errDelete) [testObj] "P"
      (errPreOptions _) 0 0 0 [] [testObj3] testObj2 [] rfl rfl rfl).1 errTest rfl⟩

/-- C11, as amended. Delete failures end the sweep: the `List` call returned
`pre ++ item :: post`, the items of `pre` went through without a return,
`item` is a candidate whose `Pre` callbacks pass, leaving `item1` in the loop
variable (`item` itself when they do not write through the pointer), and the
`Delete` issued for it fails with `derr`. When every `Post` callback returns
nil on the `Failed` entry (or there is none), `wipeRemoved` returns `derr`
itself, and the run ends with the dispatch of the `Failed` entry to the `Post`
callbacks: no `Deleted` entry is fired and no later item is visited. -/
theorem wipeRemoved_delete_failure_returned {σ : Type} (message : String) (i : Client σ)
    (u : List Unstructured) (ownerID : String) (opts : Options σ) (s s0 s1 s2 s3 : σ)
    (pre post : List Unstructured) (item item1 : Unstructured) (tr1 tr2 : List Event)
    (derr : Err)
    (hlist : i.List (ownerSelector message ownerID) s
      = ((some (pre ++ item :: post), none), s0))
    (hpre : wipeItems i u opts pre s0 = ⟨none, s1, tr1⟩)
    (hcand : contains u item.GetName = false)
    (hpre2 : fireCallbacks (CallbackArg.obj item) none opts.Pre (s1, item)
      = ⟨none, (s2, item1), tr2⟩)
    (hdel : i.Delete item1.GetName (wipeDeleteOptions opts) s2 = (some derr, s3))
    (hpost : ∀ cb ∈ opts.Post, ∀ st,
      (cb (CallbackArg.entry (NewPostStatusEntryFailed item1)) (some derr) st).1
        = CallbackResult.returns none) :
    (wipeRemoved message i u ownerID opts s).out = Outcome.ret (some derr) ∧
    (wipeRemoved message i u ownerID opts s).trace =
      Event.list (ownerSelector message ownerID) ::
        (tr1 ++ (tr2 ++ Event.delete item1.GetName (wipeDeleteOptions opts) ::
          List.replicate opts.Post.length
            (Event.callback (CallbackArg.entry (NewPostStatusEntryFailed item1))
              (some derr)))) := by
  have hl : (i.List (ownerSelector message ownerID) s).1
      = (some (pre ++ item :: post), none) := by rw [hlist]
  have hs0 : (i.List (ownerSelector message ownerID) s).2 = s0 := by rw [hlist]
  have hp1 : (wipeItems i u opts pre (i.List (ownerSelector message ownerID) s).2).val
      = none := by rw [hs0, hpre]
  have hp2 : (wipeItems i u opts pre (i.List (ownerSelector message ownerID) s).2).st
      = s1 := by rw [hs0, hpre]
  have hp3 : (wipeItems i u opts pre (i.List (ownerSelector message ownerID) s).2).trace
      = tr1 := by rw [hs0, hpre]
  have hf := fireCallbacks_append_of_ok
    (CallbackArg.entry (NewPostStatusEntryFailed item1)) (some derr) opts.Post []
    (s3, item1) hpost
  rw [List.append_nil] at hf
  have hfv : (fireCallbacks (CallbackArg.entry (NewPostStatusEntryFailed item1)) (some derr)
      opts.Post (s3, item1)).val = some derr := by rw [hf]; rfl
  have hft : (fireCallbacks (CallbackArg.entry (NewPostStatusEntryFailed item1)) (some derr)
      opts.Post (s3, item1)).trace = List.replicate opts.Post.length
        (Event.callback (CallbackArg.entry (NewPostStatusEntryFailed item1)) (some derr)) := by
    rw [hf]; simp [fireCallbacks]
  have hb := wipeItem_of_delete_error i u opts item item1 s1 s2 s3 tr2 derr derr hcand hpre2
    hdel hfv
  obtain ⟨ho, ht⟩ := wipeRemoved_stops_at message i u ownerID opts s pre post item derr hl
    hp1 (by rw [hp2, hb])
  refine ⟨ho, ?_⟩
  rw [ht, hp2, hp3, hb, hft]

/-- C11, as amended, at the input of the test `delete err` with a second
candidate listed and one succeeding `Post` callback: the error of the `Delete`
is returned and `test-obj3` is not visited. -/
theorem wipeRemoved_delete_failure_returned_witness :
    (wipeRemoved "owner" (sweepClient [testObj2, testObj3] none ["test-obj2"] errDelete)
        [testObj] "P" (okOptions _) 0).out = Outcome.ret (some errDelete) ∧
    (wipeRemoved "owner" (sweepClient [testObj2, testObj3] none ["test-obj2"] errDelete)
        [testObj] "P" (okOptions _) 0).trace =
      Event.list (ownerSelector "owner" "P") ::
        ([] ++ ([Event.callback (CallbackArg.obj testObj2) none] ++
          Event.delete testObj2.GetName (wipeDeleteOptions (okOptions Nat)) ::
          List.replicate (okOptions Nat).Post.length
            (Event.callback (CallbackArg.entry (NewPostStatusEntryFailed testObj2))
              (some errDelete)))) :=
  wipeRemoved_delete_failure_returned "owner"
    (sweepClient [testObj2, testObj3] none ["test-obj2"] errDelete) [testObj] "P"
    (okOptions _) 0 0 0 0 1 [] [testObj3] testObj2 testObj2 []
    [Event.callback (CallbackArg.obj testObj2) none] errDelete rfl rfl rfl rfl rfl
    (fun cb h st => by
      simp only [okOptions, List.mem_singleton] at h
      subst h
      rfl)

/-- C11 fails as stated: at the input of the test `delete err` with a second
candidate listed and no callback supplied, the `Delete` of `test-obj2` fails
and `wipeRemoved` returns the error of the `Delete`; the loop does not go on
to `test-obj3`, for which no `Delete` is issued. -/
theorem wipeRemoved_soft_delete_counterexample :
    (wipeRemoved "owner" (sweepClient [testObj2, testObj3] none ["test-obj2"] errDelete)
        [testObj] "P" (noOptions _) 0).out = Outcome.ret (some errDelete) ∧
    deleteCalls (wipeRemoved "owner"
        (sweepClient [testObj2, testObj3] none ["test-obj2"] errDelete)
        [testObj] "P" (noOptions _) 0).trace
      = [("test-obj2", ⟨[], DeletionPropagation.Background⟩)] :=
  ⟨rfl, rfl⟩

theorem wipeItem_some_of_delete_fails {σ : Type} (i : Client σ) (u : List Unstructured)
    (opts : Options σ) (item : Unstructured) (s : σ)
    (hcand : contains u item.GetName = false)
    (hfail : (i.Delete (itemAfterPre opts item s).GetName (wipeDeleteOptions opts)
      (storeAfterPre opts item s)).1 ≠ none) :
    ∃ e, (wipeItem i u opts item s).val = some e := by
  cases hpre : (fireCallbacks (CallbackArg.obj item) none opts.Pre (s, item)).val with
  | some e => exact ⟨e, by rw [wipeItem_of_pre_error i u opts item s e hcand hpre]⟩
  | none =>
    cases hd : (i.Delete
        (fireCallbacks (CallbackArg.obj item) none opts.Pre (s, item)).st.2.GetName
        (wipeDeleteOptions opts)
        (fireCallbacks (CallbackArg.obj item) none opts.Pre (s, item)).st.1).1 with
    | none => exact absurd hd hfail
    | some derr =>
      obtain ⟨e2, he2⟩ := fireCallbacks_val_of_some
        (CallbackArg.entry (NewPostStatusEntryFailed
          (fireCallbacks (CallbackArg.obj item) none opts.Pre (s, item)).st.2))
        derr opts.Post
        ((i.Delete
          (fireCallbacks (CallbackArg.obj item) none opts.Pre (s, item)).st.2.GetName
          (wipeDeleteOptions opts)
          (fireCallbacks (CallbackArg.obj item) none opts.Pre (s, item)).st.1).2,
         (fireCallbacks (CallbackArg.obj item) none opts.Pre (s, item)).st.2)
      exact ⟨e2, by simp [wipeItem, hcand, hpre, hd, he2]⟩

theorem wipeItems_some_of_delete_fails {σ : Type} (i : Client σ) (u : List Unstructured)
    (opts : Options σ) (items : List Unstructured) (item : Unstructured)
    (hmem : item ∈ items)
    (hcand : contains u item.GetName = false)
    (hfail : ∀ st, (i.Delete (itemAfterPre opts item st).GetName (wipeDeleteOptions opts)
      (storeAfterPre opts item st)).1 ≠ none) :
    ∀ s, ∃ e, (wipeItems i u opts items s).val = some e := by
  induction items with
  | nil => simp at hmem
  | cons x rest ih =>
    intro s
    cases hb : (wipeItem i u opts x s).val with
    | some e => exact ⟨e, by rw [wipeItems_cons_of_some i u opts x rest s e hb]⟩
    | none =>
      rcases List.mem_cons.mp hmem with hx | hx
      · subst hx
        obtain ⟨e, he⟩ := wipeItem_some_of_delete_fails i u opts item s hcand (hfail s)
        rw [he] at hb
        cases hb
      · obtain ⟨e, he⟩ := ih hx (wipeItem i u opts x s).st
        exact ⟨e, by rw [wipeItems_cons_of_none i u opts x rest s hb]; exact he⟩

/-- C12. Delete failure is reported: when the owner-label `List` returns a
list that holds a candidate (an item whose name is absent from the desired
set) whose `Delete` fails, `wipeRemoved` returns a non-nil error, whatever the
callbacks are, and also when there is none. The `Delete` of a candidate is the
call the sweep issues for it after its `Pre` callbacks: for the name that the
loop variable then has, on the store as they left it. -/
theorem wipeRemoved_reports_delete_failure {σ : Type} (message : String) (i : Client σ)
    (u : List Unstructured) (ownerID : String) (opts : Options σ) (s : σ)
    (items : List Unstructured) (item : Unstructured)
    (hlist : (i.List (ownerSelector message ownerID) s).1 = (some items, none))
    (hmem : item ∈ items)
    (hcand : contains u item.GetName = false)
    (hfail : ∀ st, (i.Delete (itemAfterPre opts item st).GetName (wipeDeleteOptions opts)
      (storeAfterPre opts item st)).1 ≠ none) :
    ∃ e, (wipeRemoved message i u ownerID opts s).out = Outcome.ret (some e) := by
  have hl1 : (i.List (ownerSelector message ownerID) s).1.1 = some items := by rw [hlist]
  have hl2 : (i.List (ownerSelector message ownerID) s).1.2 = none := by rw [hlist]
  obtain ⟨e, he⟩ := wipeItems_some_of_delete_fails i u opts items item hmem hcand hfail
    (i.List (ownerSelector message ownerID) s).2
  exact ⟨e, by simp [wipeRemoved, hl1, hl2, he]⟩

/-- C12 at the input of the test `delete err`: the list holds `test-obj2`,
the desired set holds `test-obj`, the `Delete` fails and no callback is
configured. -/
theorem wipeRemoved_reports_delete_failure_witness :
    ∃ e, (wipeRemoved "owner" (sweepClient [testObj2] none ["test-obj2"] errDelete)
        [testObj] "test-id" (noOptions _) 0).out = Outcome.ret (some e) :=
  wipeRemoved_reports_delete_failure "owner"
    (sweepClient [testObj2] none ["test-obj2"] errDelete) [testObj] "test-id"
    (noOptions _) 0 [testObj2] testObj2 rfl (List.mem_singleton.mpr rfl) rfl
    (fun st => by
      simp [sweepClient, testObj2, mkDoc, Unstructured.GetName, mapIndex, itemAfterPre,
        noOptions, fireCallbacks])

/-! ### `wipeRemoved`: one status entry for each swept document -/

theorem entryCalls_append (a b : List Event) :
    entryCalls (a ++ b) = entryCalls a ++ entryCalls b := by
  induction a with
  | nil => rfl
  | cons e a ih =>
    cases e with
    | callback v err => cases v <;> simp [entryCalls, ih]
    | _ => simp [entryCalls, ih]

theorem entryCalls_replicate_entry (n : Nat) (e : PostStatusEntry) (err : Option Err) :
    entryCalls (List.replicate n (Event.callback (CallbackArg.entry e) err))
      = List.replicate n (e, err) := by
  induction n with
  | zero => rfl
  | succ n ih => simp [List.replicate_succ, entryCalls, ih]

theorem entryCalls_replicate_obj (n : Nat) (x : Unstructured) (err : Option Err) :
    entryCalls (List.replicate n (Event.callback (CallbackArg.obj x) err)) = [] := by
  induction n with
  | zero => rfl
  | succ n ih => simp [List.replicate_succ, entryCalls, ih]

/-- The trace of a dispatch: one invocation with `(v, err)` for each callback
that ran; at most one per callback, and at least one when there is a
callback. -/
theorem fireCallbacks_trace {σ : Type} (v : CallbackArg) (err : Option Err)
    (cbs : List (Callback σ)) (s : σ) :
    ∃ n, n ≤ cbs.length ∧ (cbs ≠ [] → 1 ≤ n) ∧
      (fireCallbacks v err cbs s).trace = List.replicate n (Event.callback v err) := by
  induction cbs generalizing s with
  | nil => exact ⟨0, Nat.le_refl _, fun h => absurd rfl h, rfl⟩
  | cons cb cbs ih =>
    obtain ⟨n, hn, _, ht⟩ := ih (cb v err s).2
    simp only [fireCallbacks]
    split
    · exact ⟨1, by simp, fun _ => Nat.le_refl _, rfl⟩
    · refine ⟨n + 1, by simp [hn], fun _ => by omega, ?_⟩
      simp [ht, List.replicate_succ]

theorem entryCalls_fireCallbacks_obj {σ : Type} (x : Unstructured) (err : Option Err)
    (cbs : List (Callback σ)) (s : σ) :
    entryCalls (fireCallbacks (CallbackArg.obj x) err cbs s).trace = [] := by
  obtain ⟨n, _, _, ht⟩ := fireCallbacks_trace (CallbackArg.obj x) err cbs s
  rw [ht, entryCalls_replicate_obj]

theorem oneStatusEntry_wipeItem {σ : Type} (i : Client σ) (u : List Unstructured)
    (opts : Options σ) (item : Unstructured) (s : σ) :
    OneStatusEntry i u opts item s := by
  unfold OneStatusEntry itemAfterPre storeAfterPre
  cases hc : contains u item.GetName with
  | true => left; simp [wipeItem, hc, deleteCalls, entryCalls]
  | false =>
    cases hpre : (fireCallbacks (CallbackArg.obj item) none opts.Pre (s, item)).val with
    | some e =>
      left
      rw [wipeItem_of_pre_error i u opts item s e hc hpre]
      exact ⟨deleteCalls_fireCallbacks _ _ _ _, entryCalls_fireCallbacks_obj _ _ _ _⟩
    | none =>
      right
      have hpre2 : fireCallbacks (CallbackArg.obj item) none opts.Pre (s, item)
          = ⟨none, ((fireCallbacks (CallbackArg.obj item) none opts.Pre (s, item)).st.1,
                (fireCallbacks (CallbackArg.obj item) none opts.Pre (s, item)).st.2),
              (fireCallbacks (CallbackArg.obj item) none opts.Pre (s, item)).trace⟩ := by
        have heta : ∀ x : Step (σ × Unstructured) (Option Err), x.val = none →
            x = ⟨none, (x.st.1, x.st.2), x.trace⟩ := by
          intro x hx
          cases x
          simp_all
        exact heta _ hpre
      have hdc := deleteCalls_fireCallbacks (CallbackArg.obj item) none opts.Pre (s, item)
      have hec := entryCalls_fireCallbacks_obj item none opts.Pre (s, item)
      cases hd : i.Delete
          (fireCallbacks (CallbackArg.obj item) none opts.Pre (s, item)).st.2.GetName
          (wipeDeleteOptions opts)
          (fireCallbacks (CallbackArg.obj item) none opts.Pre (s, item)).st.1 with
      | mk r s3 =>
        cases r with
        | some derr =>
          obtain ⟨e2, he2⟩ := fireCallbacks_val_of_some
            (CallbackArg.entry (NewPostStatusEntryFailed
              (fireCallbacks (CallbackArg.obj item) none opts.Pre (s, item)).st.2))
            derr opts.Post
            (s3, (fireCallbacks (CallbackArg.obj item) none opts.Pre (s, item)).st.2)
          obtain ⟨n, hn, hn1, ht⟩ := fireCallbacks_trace
            (CallbackArg.entry (NewPostStatusEntryFailed
              (fireCallbacks (CallbackArg.obj item) none opts.Pre (s, item)).st.2))
            (some derr) opts.Post
            (s3, (fireCallbacks (CallbackArg.obj item) none opts.Pre (s, item)).st.2)
          rw [wipeItem_of_delete_error i u opts item _ s _ s3 _ derr e2 hc hpre2 hd he2, ht]
          refine ⟨?_, n, hn, hn1, Or.inl ⟨derr, rfl, ?_⟩⟩
          · simp [deleteCalls_append, deleteCalls, hdc, deleteCalls_fireCallbacks, ← ht]
          · simp [entryCalls_append, entryCalls, hec, entryCalls_replicate_entry]
        | none =>
          obtain ⟨n, hn, hn1, ht⟩ := fireCallbacks_trace
            (CallbackArg.entry (NewPostStatusEntryDeleted
              (fireCallbacks (CallbackArg.obj item) none opts.Pre (s, item)).st.2))
            none opts.Post
            (s3, (fireCallbacks (CallbackArg.obj item) none opts.Pre (s, item)).st.2)
          rw [wipeItem_of_delete_ok i u opts item _ s _ s3 _ hc hpre2 hd, ht]
          refine ⟨?_, n, hn, hn1, Or.inr ⟨rfl, ?_⟩⟩
          · simp [deleteCalls_append, deleteCalls, hdc, deleteCalls_fireCallbacks, ← ht]
          · simp [entryCalls_append, entryCalls, hec, entryCalls_replicate_entry]

/-- The loop of `wipeRemoved` is a sequence of passes of its body over a
prefix of the list. -/
theorem wipeItems_passes {σ : Type} (i : Client σ) (u : List Unstructured)
    (opts : Options σ) (items : List Unstructured) :
    ∀ s, ∃ runs : List (Unstructured × σ),
      runs.map Prod.fst <+: items ∧
      (wipeItems i u opts items s).trace
        = (runs.map (fun r => (wipeItem i u opts r.1 r.2).trace)).flatten := by
  induction items with
  | nil => intro s; exact ⟨[], by simp, by simp [wipeItems]⟩
  | cons x rest ih =>
    intro s
    cases hb : (wipeItem i u opts x s).val with
    | some e =>
      refine ⟨[(x, s)], ?_, ?_⟩
      · exact ⟨rest, rfl⟩
      · rw [wipeItems_cons_of_some i u opts x rest s e hb]; simp
    | none =>
      obtain ⟨runs, hp, ht⟩ := ih (wipeItem i u opts x s).st
      refine ⟨(x, s) :: runs, ?_, ?_⟩
      · simpa using (List.prefix_cons_inj x).mpr hp
      · rw [wipeItems_cons_of_none i u opts x rest s hb]
        simp [ht]

/-- C13. Exactly one status entry for each swept document: when the
owner-label `List` returns `items`, the run of `wipeRemoved` is the `List`
call followed by one pass of the loop for each item of a prefix of `items`,
and every pass keeps the status-entry discipline `OneStatusEntry`: a pass that
issues no `Delete` fires no status entry, and a pass that issues the `Delete`
hands the `Post` callbacks one and the same entry, the `Failed` entry with
the error when the `Delete` failed and the `Deleted` entry with a nil error
when it succeeded, never both; the entry carries the document that the loop
variable holds after the `Pre` callbacks, which is the item itself unless one
of them wrote through the pointer it was handed. -/
theorem wipeRemoved_one_status_entry {σ : Type} (message : String) (i : Client σ)
    (u : List Unstructured) (ownerID : String) (opts : Options σ) (s : σ)
    (items : List Unstructured)
    (hlist : (i.List (ownerSelector message ownerID) s).1 = (some items, none)) :
    ∃ runs : List (Unstructured × σ),
      runs.map Prod.fst <+: items ∧
      (wipeRemoved message i u ownerID opts s).trace
        = Event.list (ownerSelector message ownerID) ::
            (runs.map (fun r => (wipeItem i u opts r.1 r.2).trace)).flatten ∧
      ∀ r ∈ runs, OneStatusEntry i u opts r.1 r.2 := by
  have hl1 : (i.List (ownerSelector message ownerID) s).1.1 = some items := by rw [hlist]
  have hl2 : (i.List (ownerSelector message ownerID) s).1.2 = none := by rw [hlist]
  obtain ⟨runs, hp, ht⟩ := wipeItems_passes i u opts items
    (i.List (ownerSelector message ownerID) s).2
  refine ⟨runs, hp, ?_, fun r _ => oneStatusEntry_wipeItem i u opts r.1 r.2⟩
  simp only [wipeRemoved, hl1, hl2, ht]

/-- C13 on a list of two candidates, the `Delete` of the second of which
fails, with one `Post` callback: the run splits into passes that keep the
discipline, and the entries fired are the `Deleted` entry of `test-obj2` and
then the `Failed` entry of `test-obj3`. -/
theorem wipeRemoved_one_status_entry_witness :
    (∃ runs : List (Unstructured × Nat),
      runs.map Prod.fst <+: [testObj2, testObj3] ∧
      (wipeRemoved "owner" (sweepClient [testObj2, testObj3] none ["test-obj3"] errDelete)
          [testObj] "P" (okOptions _) 0).trace
        = Event.list (ownerSelector "owner" "P") ::
            (runs.map (fun r => (wipeItem
              (sweepClient [testObj2, testObj3] none ["test-obj3"] errDelete) [testObj]
              (okOptions _) r.1 r.2).trace)).flatten ∧
      ∀ r ∈ runs, OneStatusEntry
        (sweepClient [testObj2, testObj3] none ["test-obj3"] errDelete) [testObj]
        (okOptions _) r.1 r.2) ∧
    entryCalls (wipeRemoved "owner"
        (sweepClient [testObj2, testObj3] none ["test-obj3"] errDelete)
        [testObj] "P" (okOptions _) 0).trace
      = [(NewPostStatusEntryDeleted testObj2, none),
         (NewPostStatusEntryFailed testObj3, some errDelete)] :=
  ⟨wipeRemoved_one_status_entry "owner"
      (sweepClient [testObj2, testObj3] none ["test-obj3"] errDelete) [testObj] "P"
      (okOptions _) 0 [testObj2, testObj3] rfl,
   rfl⟩

/-! ### `newFunction` -/

theorem readFiles_error_iff (readFile : ReadFile) (pathJoin : String → String → String)
    (sourcePath : String) (es : List (String × String)) :
    ∀ spec, (readFiles readFile pathJoin sourcePath es spec).1 ≠ none ↔
      ∃ kv ∈ es, (readFile (pathJoin sourcePath kv.2)).2 ≠ none := by
  induction es with
  | nil => intro spec; simp [readFiles]
  | cons kv rest ih =>
    obtain ⟨key, value⟩ := kv
    intro spec
    cases hr : readFile (pathJoin sourcePath value) with
    | mk data e =>
      cases e with
      | some err => simp [readFiles, hr]
      | none =>
        by_cases hd : data = ""
        · simp [readFiles, hr, hd, ih]
        · simp [readFiles, hr, hd, ih]

theorem readFiles_spec_unset (readFile : ReadFile) (pathJoin : String → String → String)
    (sourcePath : String) (k : String) (es : List (String × String)) :
    ∀ spec, (∀ f, (k, f) ∈ es → (readFile (pathJoin sourcePath f)).1 = "") →
      mapIndex (readFiles readFile pathJoin sourcePath es spec).2 k = mapIndex spec k := by
  induction es with
  | nil => intro spec _; rfl
  | cons kv rest ih =>
    obtain ⟨key, value⟩ := kv
    intro spec h
    have hrest : ∀ f, (k, f) ∈ rest → (readFile (pathJoin sourcePath f)).1 = "" :=
      fun f hf => h f (List.mem_cons_of_mem _ hf)
    cases hr : readFile (pathJoin sourcePath value) with
    | mk data e =>
      cases e with
      | some err => simp [readFiles, hr]
      | none =>
        by_cases hd : data = ""
        · simp only [readFiles, hr, hd, if_true]
          exact ih spec hrest
        · simp only [readFiles, hr, hd, if_false]
          rw [ih _ hrest]
          apply mapIndex_mapAssign_other
          intro hk
          subst hk
          have h0 := h value (List.mem_cons_self _ _)
          rw [hr] at h0
          exact hd h0

theorem readFiles_spec_set (readFile : ReadFile) (pathJoin : String → String → String)
    (sourcePath : String) (k f : String) (es : List (String × String)) :
    ∀ spec, (es.map Prod.fst).Nodup → (k, f) ∈ es →
      (∀ kv ∈ es, (readFile (pathJoin sourcePath kv.2)).2 = none) →
      (readFile (pathJoin sourcePath f)).1 ≠ "" →
      mapIndex (readFiles readFile pathJoin sourcePath es spec).2 k
        = some (Value.str (readFile (pathJoin sourcePath f)).1) := by
  induction es with
  | nil => intro spec _ hm; simp at hm
  | cons kv rest ih =>
    obtain ⟨key, value⟩ := kv
    intro spec hnd hm hok hne
    simp only [List.map_cons, List.nodup_cons] at hnd
    have hokr : ∀ kv ∈ rest, (readFile (pathJoin sourcePath kv.2)).2 = none :=
      fun kv hkv => hok kv (List.mem_cons_of_mem _ hkv)
    have hok0 := hok (key, value) (List.mem_cons_self _ _)
    cases hr : readFile (pathJoin sourcePath value) with
    | mk data e =>
      rw [hr] at hok0
      simp only at hok0
      subst hok0
      rcases List.mem_cons.mp hm with hhead | htail
      · cases hhead
        rw [hr] at hne
        simp only [ne_eq] at hne
        simp only [readFiles, hr, hne, if_false]
        rw [readFiles_spec_unset readFile pathJoin sourcePath k rest _ ?_]
        · exact mapIndex_mapAssign_self _ _ _
        · intro f2 hf2
          exact absurd (List.mem_map_of_mem Prod.fst hf2) hnd.1
      · by_cases hd : data = ""
        · simp only [readFiles, hr, hd, if_true]
          exact ih spec hnd.2 htail hokr hne
        · simp only [readFiles, hr, hd, if_false]
          exact ih _ hnd.2 htail hokr hne

theorem runtimeMappings_keys (K : Names) (runtime : String) :
    ((runtimeMappings K runtime).map Prod.fst).Nodup ∧
    ∀ kv ∈ runtimeMappings K runtime, kv.1 = "source" ∨ kv.1 = "deps" := by
  unfold runtimeMappings
  split
  · simp [propertySource, propertyDeps]
  · split
    · simp [propertySource, propertyDeps]
    · split
      · simp [propertySource, propertyDeps]
      · simp

theorem resourcesOf_spec (r : Resources) :
    (r.Requests = none ∧ r.Limits = none → resourcesOf r = none) ∧
    (r.Requests ≠ none ∨ r.Limits ≠ none →
      ∃ m, resourcesOf r = some m ∧ mapIndex m "requests" = r.Requests ∧
        mapIndex m "limits" = r.Limits) := by
  obtain ⟨rq, lm⟩ := r
  cases rq <;> cases lm <;> simp [resourcesOf, mapAssign, mapIndex]

/-- What `newFunction` returns when the loop over the files ends with an
error, and when it ends without one. -/
theorem newFunction_eq (K : Names) (rangeOrder : List (String × String) → List (String × String))
    (pathJoin : String → String → String) (cfg : Cfg) (readFile : ReadFile)
    (refs : List (List (String × Value))) :
    (∀ err, (readFiles readFile pathJoin cfg.SourcePath
        (rangeOrder (runtimeMappings K cfg.Runtime))
        [("runtime", Value.strOf K.RuntimeType cfg.Runtime)]).1 = some err →
      newFunction K rangeOrder pathJoin cfg readFile refs = (⟨[]⟩, some err)) ∧
    ((readFiles readFile pathJoin cfg.SourcePath
        (rangeOrder (runtimeMappings K cfg.Runtime))
        [("runtime", Value.strOf K.RuntimeType cfg.Runtime)]).1 = none →
      newFunction K rangeOrder pathJoin cfg readFile refs =
        (⟨[("apiVersion", Value.str functionApiVersion), ("kind", Value.str "Function"),
            ("metadata", functionMetadata cfg refs),
            ("spec", Value.map
              (match resourcesOf cfg.Resources with
               | some resources =>
                 mapAssign (readFiles readFile pathJoin cfg.SourcePath
                   (rangeOrder (runtimeMappings K cfg.Runtime))
                   [("runtime", Value.strOf K.RuntimeType cfg.Runtime)]).2 "resources" (Value.map resources)
               | none => (readFiles readFile pathJoin cfg.SourcePath
                   (rangeOrder (runtimeMappings K cfg.Runtime))
                   [("runtime", Value.strOf K.RuntimeType cfg.Runtime)]).2))]⟩, none)) := by
  constructor
  · intro err h
    unfold newFunction
    cases hr : readFiles readFile pathJoin cfg.SourcePath
        (rangeOrder (runtimeMappings K cfg.Runtime)) [("runtime", Value.strOf K.RuntimeType cfg.Runtime)] with
    | mk e spec =>
      rw [hr] at h
      simp only at h
      subst h
      rfl
  · intro h
    unfold newFunction
    cases hr : readFiles readFile pathJoin cfg.SourcePath
        (rangeOrder (runtimeMappings K cfg.Runtime)) [("runtime", Value.strOf K.RuntimeType cfg.Runtime)] with
    | mk e spec =>
      rw [hr] at h
      simp only at h
      subst h
      rfl

/-- C20. The function `newFunction` fails exactly on unreadable files, in
whatever order the range visits the files mapped to the runtime: (1) it
returns an error if and only if the reader fails on one of the mapped files;
(2) the document returned with an error is the empty one; (3) when every read
succeeds, the error is nil and the document is a `Function` with the API
version, the metadata and a spec that holds the runtime, for each mapped file
the content under its property when the content is not empty and no entry
when it is empty, and a `resources` entry exactly when requests or limits are
set, which then holds them. -/
theorem newFunction_fails_exactly_on_unreadable (K : Names)
    (rangeOrder : List (String × String) → List (String × String))
    (pathJoin : String → String → String) (cfg : Cfg) (readFile : ReadFile)
    (refs : List (List (String × Value)))
    (hperm : ∀ l, (rangeOrder l).Perm l) :
    ((newFunction K rangeOrder pathJoin cfg readFile refs).2 ≠ none ↔
      ∃ kv ∈ runtimeMappings K cfg.Runtime,
        (readFile (pathJoin cfg.SourcePath kv.2)).2 ≠ none) ∧
    ((newFunction K rangeOrder pathJoin cfg readFile refs).2 ≠ none →
      (newFunction K rangeOrder pathJoin cfg readFile refs).1 = ⟨[]⟩) ∧
    ((∀ kv ∈ runtimeMappings K cfg.Runtime,
        (readFile (pathJoin cfg.SourcePath kv.2)).2 = none) →
      (newFunction K rangeOrder pathJoin cfg readFile refs).2 = none ∧
      ∃ spec,
        (newFunction K rangeOrder pathJoin cfg readFile refs).1 =
          ⟨[("apiVersion", Value.str functionApiVersion), ("kind", Value.str "Function"),
            ("metadata", functionMetadata cfg refs), ("spec", Value.map spec)]⟩ ∧
        mapIndex spec "runtime" = some (Value.strOf K.RuntimeType cfg.Runtime) ∧
        (∀ kv ∈ runtimeMappings K cfg.Runtime,
          mapIndex spec kv.1 =
            if (readFile (pathJoin cfg.SourcePath kv.2)).1 = "" then none
            else some (Value.str (readFile (pathJoin cfg.SourcePath kv.2)).1)) ∧
        (cfg.Resources.Requests = none ∧ cfg.Resources.Limits = none →
          mapIndex spec "resources" = none) ∧
        (cfg.Resources.Requests ≠ none ∨ cfg.Resources.Limits ≠ none →
          ∃ r, mapIndex spec "resources" = some (Value.map r) ∧
            mapIndex r "requests" = cfg.Resources.Requests ∧
            mapIndex r "limits" = cfg.Resources.Limits)) := by
  have hp := hperm (runtimeMappings K cfg.Runtime)
  obtain ⟨hnd0, hkeys⟩ := runtimeMappings_keys K cfg.Runtime
  have hnd : ((rangeOrder (runtimeMappings K cfg.Runtime)).map Prod.fst).Nodup :=
    (List.Perm.nodup_iff (List.Perm.map Prod.fst hp)).mpr hnd0
  have hmem : ∀ kv, kv ∈ rangeOrder (runtimeMappings K cfg.Runtime) ↔
      kv ∈ runtimeMappings K cfg.Runtime := fun kv => hp.mem_iff
  have herr := readFiles_error_iff readFile pathJoin cfg.SourcePath
    (rangeOrder (runtimeMappings K cfg.Runtime)) [("runtime", Value.strOf K.RuntimeType cfg.Runtime)]
  obtain ⟨hfail, hsucc⟩ := newFunction_eq K rangeOrder pathJoin cfg readFile refs
  have hiff : (newFunction K rangeOrder pathJoin cfg readFile refs).2 ≠ none ↔
      ∃ kv ∈ runtimeMappings K cfg.Runtime,
        (readFile (pathJoin cfg.SourcePath kv.2)).2 ≠ none := by
    cases hr : (readFiles readFile pathJoin cfg.SourcePath
        (rangeOrder (runtimeMappings K cfg.Runtime))
        [("runtime", Value.strOf K.RuntimeType cfg.Runtime)]).1 with
    | some err =>
      rw [hfail err hr]
      have h2 := herr.mp (by rw [hr]; simp)
      obtain ⟨kv, hkv, hne⟩ := h2
      exact ⟨fun _ => ⟨kv, (hmem kv).mp hkv, hne⟩, fun _ => by simp⟩
    | none =>
      rw [hsucc hr]
      constructor
      · intro h; exact absurd rfl h
      · rintro ⟨kv, hkv, hne⟩
        exact absurd hr (herr.mpr ⟨kv, (hmem kv).mpr hkv, hne⟩)
  refine ⟨hiff, ?_, ?_⟩
  · intro hne
    cases hr : (readFiles readFile pathJoin cfg.SourcePath
        (rangeOrder (runtimeMappings K cfg.Runtime))
        [("runtime", Value.strOf K.RuntimeType cfg.Runtime)]).1 with
    | some err => rw [hfail err hr]
    | none => rw [hsucc hr] at hne; exact absurd rfl hne
  · intro hok
    have hok2 : ∀ kv ∈ rangeOrder (runtimeMappings K cfg.Runtime),
        (readFile (pathJoin cfg.SourcePath kv.2)).2 = none :=
      fun kv hkv => hok kv ((hmem kv).mp hkv)
    have hr : (readFiles readFile pathJoin cfg.SourcePath
        (rangeOrder (runtimeMappings K cfg.Runtime))
        [("runtime", Value.strOf K.RuntimeType cfg.Runtime)]).1 = none := by
      by_contra hne
      obtain ⟨kv, hkv, hne2⟩ := herr.mp hne
      exact hne2 (hok2 kv hkv)
    rw [hsucc hr]
    refine ⟨rfl, _, rfl, ?_, ?_, ?_, ?_⟩
    · have h1 : mapIndex (readFiles readFile pathJoin cfg.SourcePath
          (rangeOrder (runtimeMappings K cfg.Runtime))
          [("runtime", Value.strOf K.RuntimeType cfg.Runtime)]).2 "runtime"
          = some (Value.strOf K.RuntimeType cfg.Runtime) := by
        rw [readFiles_spec_unset]
        · simp [mapIndex]
        · intro f hf
          rcases hkeys _ ((hmem _).mp hf) with h | h <;> simp at h
      cases hres : resourcesOf cfg.Resources with
      | none => simpa using h1
      | some m =>
        simp only
        rw [mapIndex_mapAssign_other _ _ _ _ (by decide)]
        exact h1
    · intro kv hkv
      have hk := hkeys kv hkv
      have h1 : mapIndex (readFiles readFile pathJoin cfg.SourcePath
          (rangeOrder (runtimeMappings K cfg.Runtime))
          [("runtime", Value.strOf K.RuntimeType cfg.Runtime)]).2 kv.1 =
          if (readFile (pathJoin cfg.SourcePath kv.2)).1 = "" then none
          else some (Value.str (readFile (pathJoin cfg.SourcePath kv.2)).1) := by
        by_cases hd : (readFile (pathJoin cfg.SourcePath kv.2)).1 = ""
        · rw [if_pos hd, readFiles_spec_unset]
          · rcases hk with h | h <;> simp [mapIndex, h]
          · intro f hf
            have heq : (kv.1, f) = kv :=
              List.inj_on_of_nodup_map hnd hf ((hmem kv).mpr hkv) rfl
            have hf2 : f = kv.2 := by rw [← heq]
            rw [hf2]
            exact hd
        · rw [if_neg hd]
          exact readFiles_spec_set readFile pathJoin cfg.SourcePath kv.1 kv.2 _ _ hnd
            ((hmem kv).mpr hkv) hok2 hd
      have hkr : kv.1 ≠ "resources" := by
        rcases hk with h | h <;> rw [h] <;> decide
      cases hres : resourcesOf cfg.Resources with
      | none => simpa using h1
      | some m =>
        simp only
        rw [mapIndex_mapAssign_other _ _ _ _ hkr]
        exact h1
    · intro hnone
      rw [(resourcesOf_spec cfg.Resources).1 hnone]
      simp only
      rw [readFiles_spec_unset]
      · simp [mapIndex]
      · intro f hf
        rcases hkeys _ ((hmem _).mp hf) with h | h <;> simp at h
    · intro hsome
      obtain ⟨m, hm, hrq, hlm⟩ := (resourcesOf_spec cfg.Resources).2 hsome
      rw [hm]
      exact ⟨m, mapIndex_mapAssign_self _ _ _, hrq, hlm⟩

/-- C20 at concrete inputs, the range visiting the files in reverse order: for
the `nodejs12` configuration the error condition is the one stated, and for
the `python38` configuration, whose files cannot be read, the returned
document is the empty one. -/
theorem newFunction_fails_exactly_on_unreadable_witness :
    ((newFunction upstreamNames List.reverse slashJoin demoCfg demoReader []).2 ≠ none ↔
      ∃ kv ∈ runtimeMappings upstreamNames demoCfg.Runtime,
        (demoReader (slashJoin demoCfg.SourcePath kv.2)).2 ≠ none) ∧
    (newFunction upstreamNames List.reverse slashJoin demoPyCfg demoReader []).1 = ⟨[]⟩ :=
  ⟨(newFunction_fails_exactly_on_unreadable upstreamNames List.reverse slashJoin demoCfg
      demoReader [] (fun l => List.reverse_perm l)).1,
   (newFunction_fails_exactly_on_unreadable upstreamNames List.reverse slashJoin demoPyCfg
      demoReader [] (fun l => List.reverse_perm l)).2.1 (by decide)⟩

/-- The document that `newFunction` builds for the `nodejs12` configuration:
the handler is stored under `source`, the empty `package.json` leaves no
`deps` entry, and the limits are stored under `resources`. -/
theorem newFunction_demo :
    newFunction upstreamNames List.reverse slashJoin demoCfg demoReader [] =
      (⟨[("apiVersion", Value.str "serverless.kyma-project.io/v1alpha1"),
         ("kind", Value.str "Function"),
         ("metadata", Value.map [("name", Value.str "demo"),
           ("labels", Value.mapOf "map[string]string" [("app", Value.str "demo")]),
           ("ownerReferences", Value.listOf "[]map[string]interface {}" [])]),
         ("spec", Value.map [("runtime", Value.str "nodejs12"),
           ("source", Value.str "module.exports = {}"),
           ("resources", Value.map [("limits", Value.map [("cpu", Value.str "1")])])])]⟩,
       none) := by
  rfl

end Hydroform
